import Mathlib

/-!
The wire protocol of the image sender and receiver of visual-feedback-udp.

A shallow embedding of

* `src/UDPImage/UDPImage.h`, `src/UDPImage/UDPImage.cpp`: the sender
  (`UDPImage::computeChecksum`, `UDPImage::sendImageInPackets`,
  `UDPImage::sendImage`, the struct `IMG_HEADER`);
* `src/Main.cpp`: the receiver (`computeChecksum`, the receive loop of `main`,
  the struct `DATA_PACKET_ENCODED_IMAGE`).

Conventions.  A `uchar` is a `Fin 256`.  A `uint16_t` is a natural number, with
`% 65536` written where the source stores into one after a shift.  The `int`
counters of the sender (`n`, `dataSent`, `packetNum`, `k`) only count upwards
from zero and are natural numbers; the receiver's `int`s (`dataReceived`,
`receivedBytes`, `imgSize`) can be negative and are integers.  Signed overflow
is undefined in C++, so the embedding describes the runs in which no counter
passes `2^31 - 1`.
-/

namespace UDPFeedback

/-- One `uchar`. -/
abbrev Byte := Fin 256

/-! ## The checksum -/

/-- Lines 152-155 of `UDPImage.cpp` (196-198 of `Main.cpp`): `word = imgBuffer[k]`,
`word = word << 8` stored into a `uint16_t`, `word |= imgBuffer[k-1]`. -/
def checksumWord (imgBuffer : List Byte) (k : Nat) : Nat :=
  (((imgBuffer.getD k 0).val <<< 8) % 65536) ||| (imgBuffer.getD (k - 1) 0).val

namespace UDPImage

/-- The `for(k = 1; k < imgBuffer.size(); k++)` loop of `UDPImage::computeChecksum`,
entered with the current `k` and `checksum`. -/
def computeChecksum.loop (imgBuffer : List Byte) (k checksum : Nat) : Nat :=
  if k < imgBuffer.length then
    computeChecksum.loop imgBuffer (k + 1) ((checksum ^^^ checksumWord imgBuffer k) % 65536)
  else
    checksum
termination_by imgBuffer.length - k

/-- The sender's `UDPImage::computeChecksum` (`UDPImage.cpp`, lines 141-162). -/
def computeChecksum (imgBuffer : List Byte) : Nat :=
  if imgBuffer.length > 1 then computeChecksum.loop imgBuffer 1 0 else 0

end UDPImage

/-- The `for(k = 1; k < imgBuffer.size(); k++)` loop of the receiver's
`computeChecksum`, entered with the current `k` and `checksum`. -/
def computeChecksum.loop (imgBuffer : List Byte) (k checksum : Nat) : Nat :=
  if k < imgBuffer.length then
    computeChecksum.loop imgBuffer (k + 1) ((checksum ^^^ checksumWord imgBuffer k) % 65536)
  else
    checksum
termination_by imgBuffer.length - k

/-- The receiver's `computeChecksum` (`Main.cpp`, lines 184-205). -/
def computeChecksum (imgBuffer : List Byte) : Nat :=
  if imgBuffer.length > 1 then computeChecksum.loop imgBuffer 1 0 else 0

/-- The checksum as section 4.2 of the specification words it: `0` for `n <= 1`,
otherwise the XOR, for `k` from `1` to `n-1`, of the words `(B[k] << 8) | B[k-1]`
into an accumulator that starts at `0`. -/
def checksumSpec (B : List Byte) : Nat :=
  if B.length ≤ 1 then 0
  else (List.range' 1 (B.length - 1)).foldl
    (fun acc k => acc ^^^ (((B.getD k 0).val <<< 8) ||| (B.getD (k - 1) 0).val)) 0


/-- The XOR of the bytes of a list. -/
def xorAll : List Byte → Nat
  | [] => 0
  | b :: bs => b.val ^^^ xorAll bs

/-- The byte `x` with bit `b` flipped. -/
def flipBit (x : Byte) (b : Nat) : Byte := Fin.ofNat (x.val ^^^ (1 <<< b))

/-- The buffer `B` with bit `b` of the byte at index `i` flipped. -/
def flipBitAt (B : List Byte) (i b : Nat) : List Byte := B.set i (flipBit (B.getD i 0) b)

/-! ## The header structures -/

/-- Size and alignment, in bytes, of a C type. -/
structure CType where
  size : Nat
  align : Nat
  deriving DecidableEq

/-- The alignments the source leaves to the compiler's target: those of `int` and of
`uint16_t`.  The sizes are fixed: `int` is the 32-bit integer of the wire format,
`uint16_t` has two bytes, `char` one. -/
structure ABI where
  intAlign : Nat
  uint16Align : Nat
  deriving DecidableEq

/-- The data model of gcc on Linux for x86-64, i386, ARM and AArch64: `int` is aligned
to 4 bytes and `uint16_t` to 2. -/
def gccLinux : ABI := { intAlign := 4, uint16Align := 2 }

/-- The members both header structures declare, in order: `char headerStr[8]`,
`int imgSize`, `int packetSize`, `uint16_t checksum`. -/
def headerMembers (abi : ABI) : List CType :=
  [⟨8, 1⟩, ⟨4, abi.intAlign⟩, ⟨4, abi.intAlign⟩, ⟨2, abi.uint16Align⟩]

/-- The least multiple of `a` that is at least `off`. -/
def alignUp (off a : Nat) : Nat := (off + a - 1) / a * a

/-- The alignment a member is laid out with: `__attribute__((packed))` makes it 1. -/
def memberAlign (packed : Bool) (t : CType) : Nat := if packed then 1 else t.align

/-- The offset after the last member, when the members are laid out in order from
offset `off`, each at the next multiple of its alignment. -/
def layoutEnd (packed : Bool) : List CType → Nat → Nat
  | [], off => off
  | t :: rest, off => layoutEnd packed rest (alignUp off (memberAlign packed t) + t.size)

/-- The alignment of a structure: the largest alignment of a member. -/
def structAlign (packed : Bool) (members : List CType) : Nat :=
  (members.map (memberAlign packed)).foldl max 1

/-- The value of `sizeof` for a structure: the end of the last member rounded up to the
structure's alignment. -/
def sizeofStruct (packed : Bool) (members : List CType) : Nat :=
  alignUp (layoutEnd packed members 0) (structAlign packed members)

/-- The sender's `sizeof(IMG_HEADER)` (`UDPImage.h`, lines 49-55: no `packed`). -/
def sizeofIMG_HEADER (abi : ABI) : Nat := sizeofStruct false (headerMembers abi)

/-- The receiver's `sizeof(DATA_PACKET_ENCODED_IMAGE)` (`Main.cpp`, lines 32-38:
`__attribute__((packed))`). -/
def sizeofDATA_PACKET_ENCODED_IMAGE (abi : ABI) : Nat := sizeofStruct true (headerMembers abi)

/-- The fields of a header structure (`IMG_HEADER` and `DATA_PACKET_ENCODED_IMAGE`
declare the same four). -/
structure Header where
  headerStr : List Byte
  imgSize : Int
  packetSize : Int
  checksum : Nat
  deriving DecidableEq

/-- The eight characters `"JPEG_IMG"`. -/
def magic : List Byte := [74, 80, 69, 71, 95, 73, 77, 71]

/-- The `int` a conversion from an unsigned value yields: the value modulo `2^32`, read
as two's complement. -/
def toInt32 (n : Nat) : Int :=
  if n % 4294967296 < 2147483648 then (n % 4294967296 : Nat) else (n % 4294967296 : Nat) - 4294967296

/-- The `width` bytes of `v`, least significant first (the byte order of the targets of
`gccLinux`). -/
def leBytes : Nat → Nat → List Byte
  | 0, _ => []
  | width + 1, v => (Fin.ofNat (v % 256)) :: leBytes width (v / 256)

/-- The number whose bytes, least significant first, are `bs`. -/
def leValue : List Byte → Nat
  | [] => 0
  | b :: bs => b.val + 256 * leValue bs

/-- The four bytes of an `int`. -/
def int32Bytes (i : Int) : List Byte := leBytes 4 (i % 4294967296).toNat

/-- The contents of the members, in order, as bytes. -/
def Header.memberBytes (h : Header) : List (List Byte) :=
  [h.headerStr, int32Bytes h.imgSize, int32Bytes h.packetSize, leBytes 2 h.checksum]

/-- The bytes of a structure in memory from offset `off`: before each member the padding
its alignment asks for, which keeps what the memory held (`stack`), then the member. -/
def objectBytes (packed : Bool) (stack : Nat → Byte) : List (CType × List Byte) → Nat → List Byte
  | [], _ => []
  | (t, bs) :: rest, off =>
    let start := alignUp off (memberAlign packed t)
    (List.range (start - off)).map (fun i => stack (off + i)) ++ bs
      ++ objectBytes packed stack rest (start + t.size)

/-- The `sizeof(imageHeader)` bytes at `&imageHeader` that `sendImage` hands to
`sendto`: the members, the padding between them, and the padding after the last. -/
def IMG_HEADER.bytes (abi : ABI) (stack : Nat → Byte) (h : Header) : List Byte :=
  let body := objectBytes false stack ((headerMembers abi).zip h.memberBytes) 0
  body ++ (List.range (sizeofIMG_HEADER abi - body.length)).map (fun i => stack (body.length + i))

/-- The structure `bcopy(buffer, &dataPacketEncodedImage, sizeof(...))` leaves in the
receiver's packed structure: bytes 0-7, 8-11, 12-15 and 16-17 of the buffer. -/
def parseHeader (buffer : List Byte) : Header :=
  { headerStr := buffer.take 8
    imgSize := toInt32 (leValue ((buffer.drop 8).take 4))
    packetSize := toInt32 (leValue ((buffer.drop 12).take 4))
    checksum := leValue ((buffer.drop 16).take 2) }

/-! ## The sender -/

/-- The sender's datagram socket: `outcome i` tells whether the call of `sendto` number
`i` (from 0) succeeds; `calls` are the buffers handed to `sendto` so far, oldest first. -/
structure Socket where
  outcome : Nat → Bool
  calls : List (List Byte)

/-- A call `sendto(socketClient, buf, len, ...)` with `buf[0..len)` the bytes `buf`: the
value returned (the length, or `-1`) and the socket afterwards. -/
def sendto (s : Socket) (buf : List Byte) : Int × Socket :=
  (if s.outcome s.calls.length then (buf.length : Int) else -1, { s with calls := s.calls ++ [buf] })

/-- What a run of the sender depends on and the source does not fix. -/
structure Env where
  /-- the target's alignments -/
  abi : ABI
  /-- what the memory of the local `imageHeader` holds before the fields are set -/
  stack : Nat → Byte
  /-- the result of `malloc(packetLength)`: `none` for `NULL`, else what the fresh block holds -/
  malloc : Option (Nat → Byte)

namespace UDPImage

/-- The loop `for(n = 0; n < packetLength && dataSent < imgBuffer.size(); n++)` of
lines 189-193, entered with the current `n`, `dataSent` and `packet`. -/
def sendImageInPackets.copy (imgBuffer : List Byte) (packetLength packetNum : Nat)
    (n dataSent : Nat) (packet : List Byte) : Nat × Nat × List Byte :=
  if n < packetLength ∧ dataSent < imgBuffer.length then
    sendImageInPackets.copy imgBuffer packetLength packetNum (n + 1) (dataSent + 1)
      (packet.set n (imgBuffer.getD (n + packetNum * packetLength) 0))
  else
    (n, dataSent, packet)
termination_by packetLength - n

/-- The local variables of `sendImageInPackets` and the socket. -/
structure SendState where
  error : Nat
  dataSent : Nat
  packetNum : Nat
  n : Nat
  packet : List Byte
  sock : Socket

/-- The `do ... while(dataSent < imgBuffer.size() && error == 0)` of lines 186-203; one
unit of `fuel` per iteration, `none` when it runs out. -/
def sendImageInPackets.doWhile (imgBuffer : List Byte) (packetLength : Nat) :
    Nat → SendState → Option SendState
  | 0, _ => none
  | fuel + 1, st =>
    let c := sendImageInPackets.copy imgBuffer packetLength st.packetNum 0 st.dataSent st.packet
    let r := sendto st.sock (c.2.2.take c.1)
    let st1 : SendState :=
      { error := if r.1 < 0 then 1 else st.error
        dataSent := c.2.1
        packetNum := st.packetNum + 1
        n := c.1
        packet := c.2.2
        sock := r.2 }
    if st1.dataSent < imgBuffer.length ∧ st1.error = 0 then
      sendImageInPackets.doWhile imgBuffer packetLength fuel st1
    else
      some st1

/-- The sender's `UDPImage::sendImageInPackets` (`UDPImage.cpp`, lines 169-211): the
value returned and the socket afterwards. -/
def sendImageInPackets (env : Env) (fuel : Nat) (sock : Socket) (imgBuffer : List Byte)
    (packetLength : Nat) : Option (Nat × Socket) :=
  match env.malloc with
  | none => some (1, sock)
  | some block =>
    (sendImageInPackets.doWhile imgBuffer packetLength fuel
      { error := 0, dataSent := 0, packetNum := 0, n := 0,
        packet := (List.range packetLength).map block, sock := sock }).map
      fun st => (st.error, st.sock)

/-- The sender's `UDPImage::sendImage` (`UDPImage.cpp`, lines 88-134) from line 109 on:
`encodedImageBuffer` is what `imencode` produced. -/
def sendImage (env : Env) (fuel : Nat) (sock : Socket) (encodedImageBuffer : List Byte)
    (packetLength : Nat) : Option (Nat × Socket) :=
  let checksum := computeChecksum encodedImageBuffer
  let imageHeader : Header :=
    { headerStr := magic
      imgSize := toInt32 encodedImageBuffer.length
      packetSize := toInt32 packetLength
      checksum := checksum }
  let r := sendto sock (IMG_HEADER.bytes env.abi env.stack imageHeader)
  let error := if r.1 < 0 then 1 else 0
  match sendImageInPackets env fuel r.2 encodedImageBuffer packetLength with
  | none => none
  | some (e, sock2) => some (if e ≠ 0 then 2 else error, sock2)

end UDPImage

/-! ## The receiver -/

/-- What a call of `recvfrom` yields: an error, or a datagram whose bytes it stored at the
start of `buffer`. -/
inductive Recv where
  | error
  | datagram (payload : List Byte)
  deriving DecidableEq

/-- The value `recvfrom` returns: `-1`, or the number of bytes stored. -/
def Recv.dataReceived : Recv → Int
  | .error => -1
  | .datagram payload => payload.length

/-- The bytes `recvfrom` stored at the start of `buffer`. -/
def Recv.buffer : Recv → List Byte
  | .error => []
  | .datagram payload => payload

/-- Where the receiver blocks: in the `recvfrom` of line 126 (`AwaitingHeader`) or in the
one of line 145 (`AwaitingData`). -/
inductive Phase where
  | AwaitingHeader
  | AwaitingData
  deriving DecidableEq

/-- What the receiver does with a transfer that ended: the message of line 152, the
message of line 162, or `imdecode` (line 157) on a buffer. -/
inductive Event where
  | sizeMismatch
  | checksumMismatch
  | decode (vectorImg : List Byte)
  deriving DecidableEq

/-- The variables of the receiver's `main` that the protocol uses. -/
structure Receiver where
  phase : Phase
  dataPacketEncodedImage : Header
  vectorImg : List Byte
  receivedBytes : Int
  deriving DecidableEq

/-- Lines 151-165 of `Main.cpp`: the two tests on the reassembled buffer, after which
control is back at the `recvfrom` of line 126.  (`vectorImg.size()` is compared with the
`int` converted to `size_t`; for a vector that fits in memory that is the comparison of
the two numbers.) -/
def validate (s : Receiver) : Receiver × List Event :=
  let s1 := { s with phase := Phase.AwaitingHeader }
  if (s.vectorImg.length : Int) ≠ s.dataPacketEncodedImage.imgSize then
    (s1, [Event.sizeMismatch])
  else if computeChecksum s.vectorImg = s.dataPacketEncodedImage.checksum then
    (s1, [Event.decode s.vectorImg])
  else
    (s1, [Event.checksumMismatch])

/-- The test of `while (receivedBytes < dataPacketEncodedImage.imgSize)` at line 143:
block in the `recvfrom` of line 145, or leave the loop for the validation. -/
def whileTest (s : Receiver) : Receiver × List Event :=
  if s.receivedBytes < s.dataPacketEncodedImage.imgSize then
    ({ s with phase := Phase.AwaitingData }, [])
  else
    validate s

/-- One return of `recvfrom` in the receiver's `main` (`Main.cpp`, lines 124-170): the
state at the next `recvfrom` and what was reported or decoded on the way. -/
def step (abi : ABI) (s : Receiver) (r : Recv) : Receiver × List Event :=
  match s.phase with
  | Phase.AwaitingHeader =>
    if r.dataReceived > 0 then
      if r.dataReceived = (sizeofDATA_PACKET_ENCODED_IMAGE abi : Nat) then
        whileTest { s with dataPacketEncodedImage := parseHeader r.buffer, vectorImg := [], receivedBytes := 0 }
      else
        (s, [])
    else
      (s, [])
  | Phase.AwaitingData =>
    whileTest
      { s with
        receivedBytes := s.receivedBytes + r.dataReceived
        vectorImg := s.vectorImg ++ r.buffer.take r.dataReceived.toNat }

/-- The receiver over the successive returns of `recvfrom`: the last state and
everything reported or decoded, in order. -/
def run (abi : ABI) : Receiver → List Recv → Receiver × List Event
  | s, [] => (s, [])
  | s, r :: rs =>
    let a := step abi s r
    let b := run abi a.1 rs
    (b.1, a.2 ++ b.2)

/-- The receiver when `main` enters its loop: nothing received, the header structure not
yet written. -/
def Receiver.init (h : Header) : Receiver :=
  { phase := Phase.AwaitingHeader, dataPacketEncodedImage := h, vectorImg := [], receivedBytes := 0 }

/-! ## What the specification prescribes, and the inputs of the examples -/

/-- The outcome section 4.3 of the specification prescribes for a transfer that ended with
the accumulated buffer `buf` under the header `h`: size mismatch when the length is not
`imgSize`, else checksum mismatch when the checksum is not the declared one, else decode. -/
def verdict (h : Header) (buf : List Byte) : Event :=
  if (buf.length : Int) ≠ h.imgSize then Event.sizeMismatch
  else if computeChecksum buf ≠ h.checksum then Event.checksumMismatch
  else Event.decode buf

/-- An environment in which `malloc` succeeds; memory holds zeros. -/
def envOk : Env := { abi := gccLinux, stack := fun _ => 0, malloc := some (fun _ => 0) }

/-- An environment in which `malloc` returns `NULL`. -/
def envNoMemory : Env := { abi := gccLinux, stack := fun _ => 0, malloc := none }

/-- A socket on which every `sendto` succeeds and nothing was sent yet. -/
def sockOk : Socket := { outcome := fun _ => true, calls := [] }

/-- A socket on which only the first `sendto` fails. -/
def sockFirstFails : Socket := { outcome := fun i => decide (i ≠ 0), calls := [] }

/-- The receiver's header structure before any header arrived. -/
def noHeader : Header := { headerStr := [], imgSize := 0, packetSize := 0, checksum := 0 }

/-- The 18 bytes of a packed header with the given fields. -/
def headerPacket (str : List Byte) (imgSize packetSize : Int) (checksum : Nat) : List Byte :=
  str ++ int32Bytes imgSize ++ int32Bytes packetSize ++ leBytes 2 checksum

/-- Eighteen bytes that start with `"XXXXXXXX"` and declare an image of 5 bytes. -/
def badMagicPacket : List Byte := headerPacket [88, 88, 88, 88, 88, 88, 88, 88] 5 4 0

/-! ## Theorems -/

theorem byte_shift_lt (b : Byte) : b.val <<< 8 < 65536 := by
  have := b.isLt
  rw [Nat.shiftLeft_eq]
  omega

theorem checksumWord_eq (B : List Byte) (k : Nat) :
    checksumWord B k = ((B.getD k 0).val <<< 8) ||| (B.getD (k - 1) 0).val := by
  unfold checksumWord
  rw [Nat.mod_eq_of_lt (byte_shift_lt _)]

theorem checksumWord_lt (B : List Byte) (k : Nat) : checksumWord B k < 65536 := by
  rw [checksumWord_eq]
  have h1 := byte_shift_lt (B.getD k 0)
  have h2 : (B.getD (k - 1) 0).val < 2 ^ 16 := lt_trans (B.getD (k - 1) 0).isLt (by norm_num)
  exact Nat.or_lt_two_pow (n := 16) h1 h2

theorem xor_word_lt (B : List Byte) (k acc : Nat) (h : acc < 65536) :
    acc ^^^ checksumWord B k < 65536 :=
  Nat.xor_lt_two_pow (n := 16) h (checksumWord_lt B k)

/-- The receiver's loop is the fold of the specification over the remaining indices. -/
theorem loop_eq_foldl (B : List Byte) (m k acc : Nat) (hm : B.length - k = m)
    (hacc : acc < 65536) :
    computeChecksum.loop B k acc
      = (List.range' k m).foldl
          (fun a j => a ^^^ (((B.getD j 0).val <<< 8) ||| (B.getD (j - 1) 0).val)) acc := by
  induction m generalizing k acc with
  | zero =>
    rw [computeChecksum.loop, if_neg (by omega)]
    simp
  | succ m ih =>
    rw [computeChecksum.loop, if_pos (by omega), Nat.mod_eq_of_lt (xor_word_lt B k acc hacc),
      ih (k + 1) _ (by omega) (xor_word_lt B k acc hacc), List.range'_succ, List.foldl_cons,
      checksumWord_eq]

theorem sender_loop_eq (B : List Byte) (m k acc : Nat) (hm : B.length - k = m) :
    UDPImage.computeChecksum.loop B k acc = computeChecksum.loop B k acc := by
  induction m generalizing k acc with
  | zero =>
    rw [computeChecksum.loop, UDPImage.computeChecksum.loop, if_neg (by omega), if_neg (by omega)]
  | succ m ih =>
    rw [computeChecksum.loop, UDPImage.computeChecksum.loop, if_pos (by omega), if_pos (by omega),
      ih (k + 1) _ (by omega)]

theorem sender_checksum_eq (B : List Byte) : UDPImage.computeChecksum B = computeChecksum B := by
  unfold UDPImage.computeChecksum computeChecksum
  split
  · exact sender_loop_eq B _ 1 0 rfl
  · rfl

theorem computeChecksum_eq_spec (B : List Byte) : computeChecksum B = checksumSpec B := by
  unfold computeChecksum checksumSpec
  by_cases h : B.length ≤ 1
  · rw [if_neg (by omega), if_pos h]
  · rw [if_pos (by omega), if_neg h]
    exact loop_eq_foldl B _ 1 0 rfl (by norm_num)

/-- Claim C1.  For every byte sequence `B` of length `n`, the sender's
`UDPImage::computeChecksum` and the receiver's `computeChecksum` both return `0` when
`n <= 1`, and otherwise the XOR, for `k` from `1` to `n-1`, of the words
`(B[k] << 8) | B[k-1]`, folded into an accumulator that starts at `0`; that is, both are
`checksumSpec`. -/
theorem C1_computeChecksum_spec (B : List Byte) :
    (B.length ≤ 1 → UDPImage.computeChecksum B = 0 ∧ computeChecksum B = 0) ∧
    (1 < B.length →
      UDPImage.computeChecksum B
        = (List.range' 1 (B.length - 1)).foldl
            (fun acc k => acc ^^^ (((B.getD k 0).val <<< 8) ||| (B.getD (k - 1) 0).val)) 0 ∧
      computeChecksum B
        = (List.range' 1 (B.length - 1)).foldl
            (fun acc k => acc ^^^ (((B.getD k 0).val <<< 8) ||| (B.getD (k - 1) 0).val)) 0) ∧
    UDPImage.computeChecksum B = checksumSpec B ∧ computeChecksum B = checksumSpec B := by
  have hs := sender_checksum_eq B
  have hr := computeChecksum_eq_spec B
  refine ⟨fun h => ?_, fun h => ?_, hs.trans hr, hr⟩
  · rw [hs, hr]; simp [checksumSpec, h]
  · rw [hs, hr]
    have : ¬ B.length ≤ 1 := by omega
    simp [checksumSpec, this]

/-- XOR acts separately on the high and the low byte of a word. -/
theorem word_xor_word (h1 l1 h2 l2 : Nat) (hl1 : l1 < 256) (hl2 : l2 < 256) :
    ((h1 <<< 8) ||| l1) ^^^ ((h2 <<< 8) ||| l2) = ((h1 ^^^ h2) <<< 8) ||| (l1 ^^^ l2) := by
  apply Nat.eq_of_testBit_eq
  intro i
  simp only [Nat.testBit_xor, Nat.testBit_or, Nat.testBit_shiftLeft]
  by_cases hi : 8 ≤ i
  · have e1 : l1.testBit i = false :=
      Nat.testBit_lt_two_pow (lt_of_lt_of_le hl1 (by
        calc 256 = 2 ^ 8 := by norm_num
          _ ≤ 2 ^ i := Nat.pow_le_pow_right (by norm_num) hi))
    have e2 : l2.testBit i = false :=
      Nat.testBit_lt_two_pow (lt_of_lt_of_le hl2 (by
        calc 256 = 2 ^ 8 := by norm_num
          _ ≤ 2 ^ i := Nat.pow_le_pow_right (by norm_num) hi))
    simp [hi, e1, e2]
  · have : ¬ i ≥ 8 := hi
    simp [this]

theorem word_eq_add (h l : Nat) (hl : l < 256) : (h <<< 8) ||| l = 256 * h + l := by
  have := Nat.mul_add_lt_is_or (i := 8) (b := l) (by simpa using hl) h
  rw [Nat.shiftLeft_eq, Nat.mul_comm]
  simpa using this.symm

theorem word_inj (h1 l1 h2 l2 : Nat) (hl1 : l1 < 256) (hl2 : l2 < 256)
    (h : (h1 <<< 8) ||| l1 = (h2 <<< 8) ||| l2) : h1 = h2 ∧ l1 = l2 := by
  rw [word_eq_add _ _ hl1, word_eq_add _ _ hl2] at h
  omega

theorem xorAll_lt (l : List Byte) : xorAll l < 256 := by
  induction l with
  | nil => simp [xorAll]
  | cons b bs ih =>
    have hb : b.val < 2 ^ 8 := b.isLt
    exact Nat.xor_lt_two_pow (n := 8) hb ih


/-- The words still to be folded in from index `k` on, in closed form. -/
theorem loop_closed (B : List Byte) (m k acc : Nat) (hm : B.length - k = m) (hk : 1 ≤ k)
    (hacc : acc < 65536) :
    computeChecksum.loop B k acc
      = acc ^^^ ((xorAll (B.drop k) <<< 8) ||| xorAll ((B.drop (k - 1)).dropLast)) := by
  induction m generalizing k acc with
  | zero =>
    rw [computeChecksum.loop, if_neg (by omega)]
    have h1 : B.drop k = [] := List.drop_eq_nil_of_le (by omega)
    have h2 : (B.drop (k - 1)).dropLast = [] := by
      have : (B.drop (k - 1)).dropLast.length = 0 := by
        rw [List.length_dropLast, List.length_drop]; omega
      exact List.length_eq_zero.mp this
    simp [h1, h2, xorAll]
  | succ m ih =>
    have hkn : k < B.length := by omega
    have hk1 : k - 1 < B.length := by omega
    rw [computeChecksum.loop, if_pos hkn, Nat.mod_eq_of_lt (xor_word_lt B k acc hacc),
      ih (k + 1) _ (by omega) (by omega) (xor_word_lt B k acc hacc), checksumWord_eq,
      Nat.xor_assoc]
    congr 1
    have d1 : B.drop k = B[k] :: B.drop (k + 1) := List.drop_eq_getElem_cons hkn
    have d0 : B.drop (k - 1) = B[k - 1] :: B.drop k := by
      have := List.drop_eq_getElem_cons hk1
      rwa [Nat.sub_add_cancel hk] at this
    have hne : B.drop k ≠ [] := by
      intro h
      have := congrArg List.length h
      rw [List.length_drop, List.length_nil] at this
      omega
    have e0 : (B.drop (k - 1)).dropLast = B[k - 1] :: (B.drop k).dropLast := by
      rw [d0, List.dropLast_cons_of_ne_nil hne]
    rw [word_xor_word _ _ _ _ (B.getD (k - 1) 0).isLt (xorAll_lt _), Nat.add_sub_cancel, e0]
    conv_rhs => rw [d1]
    rw [List.getD_eq_getElem _ _ hkn, List.getD_eq_getElem _ _ hk1]
    simp [xorAll]

/-- The closed form of the checksum of a buffer of two bytes or more. -/
theorem computeChecksum_closed (B : List Byte) (h : 2 ≤ B.length) :
    computeChecksum B = (xorAll B.tail <<< 8) ||| xorAll B.dropLast := by
  unfold computeChecksum
  rw [if_pos (by omega), loop_closed B _ 1 0 rfl (le_refl 1) (by norm_num)]
  simp


theorem xorAll_tail (B : List Byte) : xorAll B.tail = xorAll B ^^^ (B.getD 0 0).val := by
  cases B with
  | nil => simp [xorAll]
  | cons a t =>
    simp only [List.tail_cons, xorAll, List.getD_cons_zero]
    rw [Nat.xor_comm a.val, Nat.xor_cancel_right]

theorem xorAll_dropLast (B : List Byte) :
    xorAll B.dropLast = xorAll B ^^^ (B.getD (B.length - 1) 0).val := by
  induction B with
  | nil => simp [xorAll]
  | cons a t ih =>
    cases t with
    | nil => simp [xorAll]
    | cons b t =>
      have hg : (a :: b :: t).getD ((a :: b :: t).length - 1) 0
          = (b :: t).getD ((b :: t).length - 1) 0 := by
        simp only [List.length_cons, Nat.add_sub_cancel]
        exact List.getD_cons_succ
      have hx : xorAll (a :: b :: t) = a.val ^^^ xorAll (b :: t) := rfl
      rw [List.dropLast_cons_of_ne_nil (by simp), xorAll, ih, hg, hx, Nat.xor_assoc]

theorem xorAll_set (l : List Byte) (j : Nat) (y : Byte) (hj : j < l.length) :
    xorAll (l.set j y) = xorAll l ^^^ (l.getD j 0).val ^^^ y.val := by
  induction l generalizing j with
  | nil => simp at hj
  | cons a t ih =>
    cases j with
    | zero =>
      simp only [List.set_cons_zero, xorAll, List.getD_cons_zero]
      rw [Nat.xor_comm a.val, Nat.xor_cancel_right, Nat.xor_comm]
    | succ j =>
      simp only [List.set_cons_succ, xorAll, List.getD_cons_succ]
      rw [ih j (by simpa using hj), Nat.xor_assoc, Nat.xor_assoc, Nat.xor_assoc]

theorem flipBit_val (x : Byte) (b : Nat) (hb : b < 8) :
    (flipBit x b).val = x.val ^^^ (1 <<< b) := by
  have h1 : (1 <<< b) < 2 ^ 8 := by
    rw [Nat.one_shiftLeft]
    exact Nat.pow_lt_pow_right (by norm_num) hb
  have h2 : x.val < 2 ^ 8 := x.isLt
  have h3 : x.val ^^^ (1 <<< b) < 256 := Nat.xor_lt_two_pow (n := 8) h2 h1
  unfold flipBit
  simp only [Fin.ofNat, Nat.reduceAdd]
  exact Nat.mod_eq_of_lt h3

theorem one_shiftLeft_ne_zero (b : Nat) : 1 <<< b ≠ 0 := by
  rw [Nat.one_shiftLeft]
  positivity

theorem xor_ne_self (a d : Nat) (hd : d ≠ 0) : a ^^^ d ≠ a := by
  intro h
  have : a ^^^ d = a ^^^ 0 := by rw [h, Nat.xor_zero]
  exact hd (Nat.xor_right_inj.mp this)

theorem xorAll_flipBitAt (B : List Byte) (i b : Nat) (hi : i < B.length) (hb : b < 8) :
    xorAll (flipBitAt B i b) = xorAll B ^^^ (1 <<< b) := by
  unfold flipBitAt
  rw [xorAll_set B i _ hi, flipBit_val _ _ hb, Nat.xor_assoc, Nat.xor_cancel_left]

theorem length_flipBitAt (B : List Byte) (i b : Nat) : (flipBitAt B i b).length = B.length := by
  unfold flipBitAt
  exact List.length_set _ _ _

theorem getD_flipBitAt_ne (B : List Byte) (i b j : Nat) (h : i ≠ j) :
    (flipBitAt B i b).getD j 0 = B.getD j 0 := by
  unfold flipBitAt
  simp [List.getD_eq_getElem?_getD, List.getElem?_set, h]

/-- Any single bit flip in a buffer of two bytes or more changes the checksum. -/
theorem checksum_flip_ne (B : List Byte) (i b : Nat) (hn : 2 ≤ B.length) (hi : i < B.length)
    (hb : b < 8) : computeChecksum (flipBitAt B i b) ≠ computeChecksum B := by
  have hlen := length_flipBitAt B i b
  rw [computeChecksum_closed B hn, computeChecksum_closed _ (by omega)]
  intro h
  obtain ⟨hhi, hlo⟩ := word_inj _ _ _ _ (xorAll_lt _) (xorAll_lt _) h
  rw [xorAll_tail, xorAll_tail B, xorAll_flipBitAt B i b hi hb] at hhi
  rw [xorAll_dropLast, xorAll_dropLast B, xorAll_flipBitAt B i b hi hb, hlen] at hlo
  by_cases h0 : i = 0
  · have hne : i ≠ B.length - 1 := by omega
    rw [getD_flipBitAt_ne B i b _ hne, Nat.xor_assoc, Nat.xor_comm (1 <<< b), ← Nat.xor_assoc] at hlo
    exact xor_ne_self _ _ (one_shiftLeft_ne_zero b) hlo
  · rw [getD_flipBitAt_ne B i b 0 h0, Nat.xor_assoc, Nat.xor_comm (1 <<< b), ← Nat.xor_assoc] at hhi
    exact xor_ne_self _ _ (one_shiftLeft_ne_zero b) hhi

theorem sizeof_packed (abi : ABI) : sizeofDATA_PACKET_ENCODED_IMAGE abi = 18 := by
  simp [sizeofDATA_PACKET_ENCODED_IMAGE, sizeofStruct, headerMembers, layoutEnd, memberAlign,
    structAlign, alignUp]

theorem run_append (abi : ABI) (s : Receiver) (xs ys : List Recv) :
    run abi s (xs ++ ys)
      = ((run abi (run abi s xs).1 ys).1, (run abi s xs).2 ++ (run abi (run abi s xs).1 ys).2) := by
  induction xs generalizing s with
  | nil => simp [run]
  | cons x xs ih => simp [run, ih, List.append_assoc]

theorem step_data (abi : ABI) (s : Receiver) (p : List Byte) (h : s.phase = Phase.AwaitingData) :
    step abi s (Recv.datagram p)
      = whileTest { s with receivedBytes := s.receivedBytes + p.length, vectorImg := s.vectorImg ++ p } := by
  unfold step
  rw [h]
  simp [Recv.dataReceived, Recv.buffer]

theorem step_header (abi : ABI) (s : Receiver) (hp : List Byte)
    (h : s.phase = Phase.AwaitingHeader) (hlen : hp.length = 18) :
    step abi s (Recv.datagram hp)
      = whileTest { s with dataPacketEncodedImage := parseHeader hp, vectorImg := [], receivedBytes := 0 } := by
  unfold step
  rw [h]
  simp [Recv.dataReceived, Recv.buffer, sizeof_packed, hlen]

theorem step_ignored (abi : ABI) (s : Receiver) (r : Recv)
    (h : s.phase = Phase.AwaitingHeader) (hlen : r.dataReceived ≠ 18) :
    step abi s r = (s, []) := by
  unfold step
  rw [h]
  simp only [sizeof_packed]
  split
  · rw [if_neg]
    simpa using hlen
  · rfl

/-- While the bytes received stay below `imgSize` the receiver only appends. -/
theorem run_data_below (abi : ABI) (ps : List (List Byte)) (s : Receiver)
    (hph : s.phase = Phase.AwaitingData)
    (hlt : s.receivedBytes + (ps.flatten.length : Int) < s.dataPacketEncodedImage.imgSize) :
    run abi s (ps.map Recv.datagram)
      = ({ s with receivedBytes := s.receivedBytes + ps.flatten.length,
                  vectorImg := s.vectorImg ++ ps.flatten }, []) := by
  induction ps generalizing s with
  | nil => simp [run]
  | cons p ps ih =>
    simp only [List.flatten_cons, List.length_append, Nat.cast_add] at hlt
    have hp : s.receivedBytes + (p.length : Int) < s.dataPacketEncodedImage.imgSize := by
      have : (0 : Int) ≤ (ps.flatten.length : Int) := Int.natCast_nonneg _
      omega
    simp only [List.map_cons, run, step_data abi s p hph, whileTest]
    rw [if_pos hp]
    rw [ih _ rfl (by simpa [add_assoc] using hlt)]
    simp [hph, add_assoc]

/-- The packet with which the bytes received reach `imgSize` ends the transfer. -/
theorem run_data_complete (abi : ABI) (qs : List (List Byte)) (p : List Byte) (s : Receiver)
    (hph : s.phase = Phase.AwaitingData)
    (hlt : s.receivedBytes + (qs.flatten.length : Int) < s.dataPacketEncodedImage.imgSize)
    (hge : s.dataPacketEncodedImage.imgSize
      ≤ s.receivedBytes + ((qs ++ [p]).flatten.length : Int)) :
    run abi s ((qs ++ [p]).map Recv.datagram)
      = validate { s with receivedBytes := s.receivedBytes + (qs ++ [p]).flatten.length,
                          vectorImg := s.vectorImg ++ (qs ++ [p]).flatten } := by
  rw [List.map_append, run_append, run_data_below abi qs s hph hlt]
  simp only [List.map_cons, List.map_nil, run, List.nil_append, List.append_nil]
  rw [step_data abi _ p (by exact hph)]
  simp only [List.flatten_append, List.flatten_cons, List.flatten_nil, List.append_nil,
    List.length_append, Nat.cast_add] at hge ⊢
  simp only [whileTest]
  rw [if_neg (by omega)]
  simp [validate, add_assoc]

/-- What the copying loop leaves: the counters advanced by the number of bytes copied, the
packet buffer as long as before, holding the copied bytes where it was written. -/
theorem copy_spec (B : List Byte) (P k : Nat) (m n d : Nat) (packet : List Byte)
    (hm : P - n = m) :
    (UDPImage.sendImageInPackets.copy B P k n d packet).1 = n + min (P - n) (B.length - d) ∧
    (UDPImage.sendImageInPackets.copy B P k n d packet).2.1 = d + min (P - n) (B.length - d) ∧
    (UDPImage.sendImageInPackets.copy B P k n d packet).2.2.length = packet.length ∧
    ∀ j, (UDPImage.sendImageInPackets.copy B P k n d packet).2.2.getD j 0
      = if n ≤ j ∧ j < n + min (P - n) (B.length - d) ∧ j < packet.length
        then B.getD (j + k * P) 0 else packet.getD j 0 := by
  induction m generalizing n d packet with
  | zero =>
    rw [UDPImage.sendImageInPackets.copy, if_neg (by omega)]
    refine ⟨by simp only; omega, by simp only; omega, rfl, fun j => ?_⟩
    rw [if_neg (by omega)]
  | succ m ih =>
    rw [UDPImage.sendImageInPackets.copy]
    by_cases hc : n < P ∧ d < B.length
    · rw [if_pos hc]
      obtain ⟨h1, h2, h3, h4⟩ := ih (n + 1) (d + 1)
        (packet.set n (B.getD (n + k * P) 0)) (by omega)
      refine ⟨by rw [h1]; omega, by rw [h2]; omega, by rw [h3, List.length_set], ?_⟩
      intro j
      rw [h4 j, List.length_set]
      by_cases hjn : j = n
      · subst hjn
        by_cases hlt : j < packet.length
        · rw [if_neg (by omega), if_pos ⟨le_refl _, by omega, hlt⟩]
          simp [List.getD_eq_getElem?_getD, List.getElem?_set, hlt]
        · rw [if_neg (by omega), if_neg (by omega)]
          have hle : packet.length ≤ j := by omega
          simp [List.getD_eq_getElem?_getD, List.getElem?_set, hlt, List.getElem?_eq_none hle]
      · have hset : (packet.set n (B.getD (n + k * P) 0)).getD j 0 = packet.getD j 0 := by
          simp [List.getD_eq_getElem?_getD, List.getElem?_set, Ne.symm hjn]
        rw [hset]
        by_cases hcond : n + 1 ≤ j ∧ j < n + 1 + min (P - (n + 1)) (B.length - (d + 1)) ∧
            j < packet.length
        · rw [if_pos hcond, if_pos ⟨by omega, by omega, hcond.2.2⟩]
        · rw [if_neg hcond, if_neg (by omega)]
    · rw [if_neg hc]
      refine ⟨by simp only; omega, by simp only; omega, rfl, fun j => ?_⟩
      rw [if_neg (by omega)]

/-- The bytes one iteration of the sending loop hands to `sendto`. -/
theorem copy_take (B : List Byte) (P k : Nat) (packet : List Byte) (hlen : packet.length = P)
    (hk : k * P ≤ B.length) :
    (UDPImage.sendImageInPackets.copy B P k 0 (k * P) packet).2.2.take
        (UDPImage.sendImageInPackets.copy B P k 0 (k * P) packet).1
      = (B.drop (k * P)).take P := by
  obtain ⟨h1, _, h3, h4⟩ := copy_spec B P k P 0 (k * P) packet rfl
  rw [h1]
  simp only [Nat.zero_add, Nat.sub_zero] at h4 ⊢
  apply List.ext_getElem
  · simp [h3, hlen]
  · intro j hj1 hj2
    simp only [List.length_take, List.length_drop] at hj1 hj2
    rw [List.getElem_take, List.getElem_take, List.getElem_drop]
    have hj : j < (UDPImage.sendImageInPackets.copy B P k 0 (k * P) packet).2.2.length := by omega
    have e := h4 j
    rw [List.getD_eq_getElem _ _ hj, if_pos ⟨Nat.zero_le _, by omega, by omega⟩,
      List.getD_eq_getElem _ _ (by omega)] at e
    rw [e]
    congr 1
    omega


/-- The packet number `k` of the buffer `B` cut at every `P` bytes. -/
theorem chunk_range_succ (f : Nat → List Byte) (k d : Nat) :
    (List.range' k (d + 1)).map f = f k :: (List.range' (k + 1) d).map f := by
  rw [List.range'_succ, List.map_cons]

/-- The sending loop, whatever the outcomes of `sendto`: it ends; it sends the pieces of
`B` in order until one send fails or the last piece is sent. -/
theorem doWhile_spec (B : List Byte) (P m : Nat) (hm1 : B.length ≤ m * P)
    (hm2 : m = 1 ∨ (m - 1) * P < B.length) :
    ∀ (d fuel k : Nat) (st : UDPImage.SendState), k + d = m → 1 ≤ d → d ≤ fuel →
      st.packetNum = k → st.dataSent = k * P → st.packet.length = P → st.error = 0 →
      ∃ st', UDPImage.sendImageInPackets.doWhile B P fuel st = some st' ∧
        st'.sock.outcome = st.sock.outcome ∧
        ((∀ j, j < d → st.sock.outcome (st.sock.calls.length + j) = true) →
          st'.error = 0 ∧
          st'.sock.calls
            = st.sock.calls ++ (List.range' k d).map (fun j => (B.drop (j * P)).take P)) ∧
        (∀ j, j < d → (∀ i, i < j → st.sock.outcome (st.sock.calls.length + i) = true) →
          st.sock.outcome (st.sock.calls.length + j) = false →
          st'.error = 1 ∧
          st'.sock.calls
            = st.sock.calls ++ (List.range' k (j + 1)).map (fun j => (B.drop (j * P)).take P)) := by
  intro d
  induction d with
  | zero => intro fuel k st _ h; omega
  | succ d ih =>
    intro fuel k st hkd _ hfuel hpn hds hlen herr
    obtain ⟨error, dataSent, packetNum, n, packet, sock⟩ := st
    simp only at hpn hds hlen herr
    subst hpn hds herr
    cases fuel with
    | zero => omega
    | succ fuel =>
      have hkm : packetNum ≤ m - 1 := by omega
      have hkL : packetNum * P ≤ B.length := by
        rcases hm2 with h | h
        · have : packetNum = 0 := by omega
          simp [this]
        · exact le_of_lt (lt_of_le_of_lt (Nat.mul_le_mul_right P hkm) h)
      obtain ⟨c1, c2, c3, _⟩ := copy_spec B P packetNum P 0 (packetNum * P) packet rfl
      have ctake := copy_take B P packetNum packet hlen hkL
      simp only [Nat.sub_zero, Nat.zero_add] at c1 c2
      rw [UDPImage.sendImageInPackets.doWhile]
      simp only [ctake, c2, sendto]
      by_cases hout : sock.outcome sock.calls.length = true
      · -- the send succeeds
        simp only [hout, if_true]
        have hnn : ¬ ((((B.drop (packetNum * P)).take P).length : Int) < 0) := by
          have := Int.natCast_nonneg ((B.drop (packetNum * P)).take P).length
          omega
        simp only [hnn, if_false]
        by_cases hd : d = 0
        · -- the last piece
          subst hd
          have hfull : ¬ (packetNum * P + min P (B.length - packetNum * P) < B.length ∧ True) := by
            have : B.length ≤ (packetNum + 1) * P := by
              have : packetNum + 1 = m := by omega
              rw [this]; exact hm1
            rw [Nat.add_mul, Nat.one_mul] at this
            omega
          rw [if_neg hfull]
          refine ⟨_, rfl, rfl, ?_, ?_⟩
          · intro _
            exact ⟨rfl, by simp⟩
          · intro j hj _ hf
            have : j = 0 := by omega
            subst this
            simp only [Nat.add_zero] at hf
            rw [hout] at hf
            exact absurd hf (by simp)
        · -- more pieces follow
          have hlt : (packetNum + 1) * P < B.length := by
            rcases hm2 with h | h
            · omega
            · exact lt_of_le_of_lt (Nat.mul_le_mul_right P (by omega)) h
          have hmin : packetNum * P + min P (B.length - packetNum * P) = (packetNum + 1) * P := by
            rw [Nat.add_mul, Nat.one_mul] at hlt ⊢
            omega
          have hcont : packetNum * P + min P (B.length - packetNum * P) < B.length ∧ True := by
            rw [hmin]; exact ⟨hlt, trivial⟩
          rw [if_pos hcont]
          obtain ⟨st', e1, e2, e3, e4⟩ := ih fuel (packetNum + 1)
            { error := 0
              dataSent := packetNum * P + min P (B.length - packetNum * P)
              packetNum := packetNum + 1
              n := (UDPImage.sendImageInPackets.copy B P packetNum 0 (packetNum * P) packet).1
              packet := (UDPImage.sendImageInPackets.copy B P packetNum 0 (packetNum * P) packet).2.2
              sock := { outcome := sock.outcome, calls := sock.calls ++ [(B.drop (packetNum * P)).take P] } }
            (by omega) (by omega) (by omega) rfl hmin (by rw [c3, hlen]) rfl
          refine ⟨st', e1, e2, ?_, ?_⟩
          · intro hall
            have := e3 (fun j hj => by
              have := hall (j + 1) (by omega)
              simpa [Nat.add_assoc, Nat.add_comm 1 j] using this)
            refine ⟨this.1, ?_⟩
            rw [this.2, chunk_range_succ]
            simp
          · intro j hj hbefore hf
            cases j with
            | zero =>
              simp only [Nat.add_zero] at hf
              rw [hout] at hf
              exact absurd hf (by simp)
            | succ j =>
              have := e4 j (by omega)
                (fun i hi => by
                  have := hbefore (i + 1) (by omega)
                  simpa [Nat.add_assoc, Nat.add_comm 1 i] using this)
                (by simpa [Nat.add_assoc, Nat.add_comm 1 j] using hf)
              refine ⟨this.1, ?_⟩
              rw [this.2, chunk_range_succ (fun j => (B.drop (j * P)).take P) packetNum (j + 1)]
              simp
      · -- the send fails
        have hout' : sock.outcome sock.calls.length = false := by simpa using hout
        simp only [hout', Bool.false_eq_true, if_false]
        have hneg : ((-1 : Int) < 0) := by norm_num
        simp only [hneg, if_true]
        rw [if_neg (by simp)]
        refine ⟨_, rfl, rfl, ?_, ?_⟩
        · intro hall
          have := hall 0 (by omega)
          simp only [Nat.add_zero] at this
          rw [hout'] at this
          exact absurd this (by simp)
        · intro j hj hbefore _
          have : j = 0 := by
            by_contra hne
            have := hbefore 0 (by omega)
            simp only [Nat.add_zero] at this
            rw [hout'] at this
            exact absurd this (by simp)
          subst this
          exact ⟨rfl, by simp⟩

theorem ceil_bounds (L P : Nat) (hP : 0 < P) :
    L ≤ max 1 ((L + P - 1) / P) * P ∧
    (max 1 ((L + P - 1) / P) = 1 ∨ (max 1 ((L + P - 1) / P) - 1) * P < L) := by
  have h1 : (L + P - 1) / P * P ≤ L + P - 1 := Nat.div_mul_le_self _ _
  have h2 : L + P - 1 < (L + P - 1) / P * P + P := Nat.lt_div_mul_add hP
  generalize (L + P - 1) / P = c at h1 h2
  rcases Nat.lt_or_ge c 2 with hc | hc
  · have hmax : max 1 c = 1 := by omega
    rw [hmax]
    refine ⟨?_, Or.inl rfl⟩
    have : c * P ≤ 1 * P := Nat.mul_le_mul_right P (by omega)
    omega
  · have hmax : max 1 c = c := by omega
    rw [hmax]
    refine ⟨by omega, Or.inr ?_⟩
    rw [Nat.sub_mul]
    have : 2 * P ≤ c * P := Nat.mul_le_mul_right P hc
    omega

theorem ceil_le_succ (L P : Nat) (hP : 0 < P) : max 1 ((L + P - 1) / P) ≤ L + 1 := by
  obtain ⟨_, h⟩ := ceil_bounds L P hP
  rcases h with h | h
  · omega
  · have : max 1 ((L + P - 1) / P) - 1 ≤ (max 1 ((L + P - 1) / P) - 1) * P :=
      Nat.le_mul_of_pos_right _ hP
    omega

theorem ceil_eq (L P : Nat) (hP : 0 < P) :
    (L + P - 1) / P = if L % P = 0 then L / P else L / P + 1 := by
  have hdm : P * (L / P) + L % P = L := Nat.div_add_mod L P
  have hr : L % P < P := Nat.mod_lt _ hP
  rw [Nat.mul_comm] at hdm
  split
  · next h0 =>
    apply Nat.div_eq_of_lt_le
    · omega
    · rw [Nat.add_mul, Nat.one_mul]; omega
  · next h0 =>
    apply Nat.div_eq_of_lt_le
    · rw [Nat.add_mul, Nat.one_mul]; omega
    · rw [Nat.add_mul, Nat.add_mul, Nat.one_mul]; omega

/-- The length the last piece has, for a buffer that is not empty. -/
theorem last_length (L P : Nat) (hP : 0 < P) (hL : 0 < L) :
    L - ((L + P - 1) / P - 1) * P = if L % P = 0 then P else L % P := by
  have hdm : P * (L / P) + L % P = L := Nat.div_add_mod L P
  rw [Nat.mul_comm] at hdm
  rw [ceil_eq L P hP]
  by_cases h0 : L % P = 0
  · rw [if_pos h0, if_pos h0, Nat.sub_mul, Nat.one_mul]
    have : 1 * P ≤ L / P * P := Nat.mul_le_mul_right P (by
      rcases Nat.eq_zero_or_pos (L / P) with h | h
      · rw [h] at hdm; omega
      · exact h)
    omega
  · rw [if_neg h0, if_neg h0, Nat.add_sub_cancel]
    omega

/-- The pieces of `B`, joined up to piece `m`, are the first `m * P` bytes of `B`. -/
theorem flatten_chunks (B : List Byte) (P m : Nat) :
    ((List.range m).map (fun j => (B.drop (j * P)).take P)).flatten = B.take (m * P) := by
  induction m with
  | zero => simp
  | succ m ih =>
    rw [List.range_succ, List.map_append, List.flatten_append, ih, Nat.add_mul, Nat.one_mul,
      List.take_add]
    simp

/-- What `UDPImage.sendImageInPackets` does once the packet buffer is allocated, whatever the
outcomes of `sendto`. -/
theorem sendImageInPackets_spec (env : Env) (fuel : Nat) (sock : Socket) (B : List Byte)
    (P : Nat) (block : Nat → Byte) (hmalloc : env.malloc = some block) (hP : 0 < P)
    (hfuel : B.length + 1 ≤ fuel) :
    ∃ e calls, UDPImage.sendImageInPackets env fuel sock B P = some (e, { outcome := sock.outcome, calls := calls }) ∧
      ((∀ j, j < max 1 ((B.length + P - 1) / P) → sock.outcome (sock.calls.length + j) = true) →
        e = 0 ∧ calls = sock.calls
          ++ (List.range (max 1 ((B.length + P - 1) / P))).map (fun j => (B.drop (j * P)).take P)) ∧
      (∀ j, j < max 1 ((B.length + P - 1) / P) →
        (∀ i, i < j → sock.outcome (sock.calls.length + i) = true) →
        sock.outcome (sock.calls.length + j) = false →
        e = 1 ∧ calls = sock.calls
          ++ (List.range (j + 1)).map (fun j => (B.drop (j * P)).take P)) := by
  obtain ⟨hb1, hb2⟩ := ceil_bounds B.length P hP
  have hle := ceil_le_succ B.length P hP
  obtain ⟨st', e1, e2, e3, e4⟩ := doWhile_spec B P _ hb1 hb2 (max 1 ((B.length + P - 1) / P)) fuel 0
    { error := 0, dataSent := 0, packetNum := 0, n := 0,
      packet := (List.range P).map block, sock := sock }
    (by omega) (by omega) (by omega) rfl (by simp) (by simp) rfl
  refine ⟨st'.error, st'.sock.calls, ?_, ?_, ?_⟩
  · unfold UDPImage.sendImageInPackets
    rw [hmalloc]
    simp only [e1, Option.map_some']
    congr 2
    cases hs : st'.sock with
    | mk o c => rw [hs] at e2; simp only at e2; rw [e2]
  · intro hall
    have := e3 hall
    rw [List.range_eq_range']
    exact this
  · intro j hj hb hf
    have := e4 j hj hb hf
    rw [List.range_eq_range']
    exact this

theorem run_header_complete (abi : ABI) (s : Receiver) (hp : List Byte) (qs : List (List Byte))
    (p : List Byte) (hph : s.phase = Phase.AwaitingHeader) (hlen : hp.length = 18)
    (hlt : (qs.flatten.length : Int) < (parseHeader hp).imgSize)
    (hge : (parseHeader hp).imgSize ≤ ((qs ++ [p]).flatten.length : Int)) :
    run abi s (Recv.datagram hp :: (qs ++ [p]).map Recv.datagram)
      = validate { phase := Phase.AwaitingData, dataPacketEncodedImage := parseHeader hp,
                   vectorImg := (qs ++ [p]).flatten,
                   receivedBytes := ((qs ++ [p]).flatten.length : Int) } := by
  have hpos : (0 : Int) < (parseHeader hp).imgSize :=
    lt_of_le_of_lt (Int.natCast_nonneg _) hlt
  rw [run, step_header abi s hp hph hlen]
  simp only [whileTest]
  rw [if_pos hpos]
  simp only [List.nil_append]
  rw [run_data_complete abi qs p _ rfl (by simpa using hlt) (by simpa using hge)]
  simp

theorem run_header_below (abi : ABI) (s : Receiver) (hp : List Byte) (ps : List (List Byte))
    (hph : s.phase = Phase.AwaitingHeader) (hlen : hp.length = 18)
    (hlt : (ps.flatten.length : Int) < (parseHeader hp).imgSize) :
    run abi s (Recv.datagram hp :: ps.map Recv.datagram)
      = ({ phase := Phase.AwaitingData, dataPacketEncodedImage := parseHeader hp,
           vectorImg := ps.flatten, receivedBytes := (ps.flatten.length : Int) }, []) := by
  have hpos : (0 : Int) < (parseHeader hp).imgSize :=
    lt_of_le_of_lt (Int.natCast_nonneg _) hlt
  rw [run, step_header abi s hp hph hlen]
  simp only [whileTest]
  rw [if_pos hpos]
  simp only [List.nil_append]
  rw [run_data_below abi ps _ rfl (by simpa using hlt)]
  simp

theorem validate_eq_verdict (s : Receiver) :
    validate s = ({ s with phase := Phase.AwaitingHeader },
      [verdict s.dataPacketEncodedImage s.vectorImg]) := by
  unfold validate verdict
  by_cases h1 : (s.vectorImg.length : Int) ≠ s.dataPacketEncodedImage.imgSize
  · simp [h1]
  · by_cases h2 : computeChecksum s.vectorImg = s.dataPacketEncodedImage.checksum
    · simp [h1, h2]
    · simp [h1, h2]

/-- The pieces the sender cuts `B` into, for a packet length `P`. -/
theorem chunks_props (B : List Byte) (P : Nat) (hP : 0 < P) :
    (∀ p ∈ (List.range (max 1 ((B.length + P - 1) / P))).map (fun j => (B.drop (j * P)).take P),
      p.length ≤ P) ∧
    ((List.range (max 1 ((B.length + P - 1) / P))).map
      (fun j => (B.drop (j * P)).take P)).flatten = B := by
  constructor
  · intro p hp
    simp only [List.mem_map, List.mem_range] at hp
    obtain ⟨j, _, rfl⟩ := hp
    rw [List.length_take]
    exact Nat.min_le_left _ _
  · rw [flatten_chunks]
    exact List.take_of_length_le (ceil_bounds B.length P hP).1

/-- Receiving the sender's pieces in sending order, from an empty buffer, ends the
transfer with the buffer `B`. -/
theorem run_chunks (abi : ABI) (B : List Byte) (P : Nat) (hP : 0 < P) (s : Receiver)
    (hph : s.phase = Phase.AwaitingData) (hv : s.vectorImg = []) (hr : s.receivedBytes = 0)
    (hsz : s.dataPacketEncodedImage.imgSize = B.length) :
    run abi s (((List.range (max 1 ((B.length + P - 1) / P))).map
        (fun j => (B.drop (j * P)).take P)).map Recv.datagram)
      = validate { s with vectorImg := B, receivedBytes := B.length } := by
  obtain ⟨hb1, hb2⟩ := ceil_bounds B.length P hP
  have hfl := (chunks_props B P hP).2
  generalize max 1 ((B.length + P - 1) / P) = m at hb1 hb2 hfl
  cases m with
  | zero =>
    have hB : B.length = 0 := by simpa using hb1
    have : B = [] := List.length_eq_zero.mp hB
    subst this
    rcases hb2 with h | h
    · omega
    · simp at h
  | succ m =>
    rw [List.range_succ, List.map_append, List.map_cons, List.map_nil] at hfl ⊢
    have hq : (((List.range m).map (fun j => (B.drop (j * P)).take P)).flatten.length : Int)
        = min (m * P) B.length := by
      rw [flatten_chunks, List.length_take]
    by_cases hB : B.length = 0
    · have hBn : B = [] := List.length_eq_zero.mp hB
      have hm : m = 0 := by
        rcases hb2 with h | h
        · omega
        · rw [hB] at h; omega
      subst hBn hm
      cases s with
      | mk ph hd v rb =>
        simp only at hph hv hr hsz
        subst hph hv hr
        simp [run, step, Recv.dataReceived, Recv.buffer, whileTest, hsz]
    · have hlt : s.receivedBytes
          + (((List.range m).map (fun j => (B.drop (j * P)).take P)).flatten.length : Int)
          < s.dataPacketEncodedImage.imgSize := by
        rw [hq, hr, hsz]
        rcases hb2 with h | h
        · have : m = 0 := by omega
          subst this
          simp
          omega
        · simp only [Nat.add_sub_cancel] at h
          have : min (m * P) B.length = m * P := by omega
          rw [this]
          omega
      rw [run_data_complete abi _ _ s hph hlt (by rw [hfl, hr, hsz]; simp)]
      rw [hfl, hv, hr]
      simp

/-- Claim C2, amended.  For every buffer `B` and packet length `P > 0`, when `malloc`
returns a packet buffer (line 175 of `UDPImage.cpp`) and every send succeeds, `sendImageInPackets` ends (fuel
`B.length + 1` is enough) and returns `0`; the data packets `pk` it handed to `sendto`
each have length at most `P`; packet `j` is the `P` bytes of `B` from offset `j * P` (what
is left of them), so the packets cut `B` contiguously, in order, without gap or overlap;
appended in sending order they give exactly `B`; the receiver, awaiting data under a
header that declares the length and the checksum of `B`, reassembles `B` from them and
decodes it; and the checksum of the reassembled buffer is the checksum of `B`. -/
theorem C2_fragment_roundtrip (env : Env) (fuel : Nat) (sock : Socket) (B : List Byte) (P : Nat)
    (block : Nat → Byte) (hP : 0 < P) (hmalloc : env.malloc = some block)
    (hall : ∀ i, sock.outcome i = true) (hfuel : B.length + 1 ≤ fuel) :
    ∃ pk : List (List Byte),
      UDPImage.sendImageInPackets env fuel sock B P
        = some (0, { outcome := sock.outcome, calls := sock.calls ++ pk }) ∧
      (∀ p ∈ pk, p.length ≤ P) ∧
      (∀ j, j < pk.length → pk.getD j [] = (B.drop (j * P)).take P) ∧
      pk.flatten = B ∧
      pk.foldl (fun vectorImg payload => vectorImg ++ payload) [] = B ∧
      (∀ (abi : ABI) (s : Receiver), s.phase = Phase.AwaitingData → s.vectorImg = [] →
        s.receivedBytes = 0 → s.dataPacketEncodedImage.imgSize = B.length →
        s.dataPacketEncodedImage.checksum = UDPImage.computeChecksum B →
        run abi s (pk.map Recv.datagram)
          = ({ phase := Phase.AwaitingHeader, dataPacketEncodedImage := s.dataPacketEncodedImage,
               vectorImg := B, receivedBytes := B.length }, [Event.decode B])) ∧
      computeChecksum pk.flatten = UDPImage.computeChecksum B := by
  obtain ⟨e, calls, hres, hok, _⟩ := sendImageInPackets_spec env fuel sock B P block hmalloc hP hfuel
  obtain ⟨he, hcalls⟩ := hok (fun j _ => hall _)
  obtain ⟨hle, hfl⟩ := chunks_props B P hP
  subst he hcalls
  refine ⟨_, hres, hle, ?_, hfl, ?_, ?_, ?_⟩
  · intro j hj
    rw [List.length_map, List.length_range] at hj
    rw [List.getD_eq_getElem _ _ (by simpa using hj)]
    simp
  · have key : ∀ (pk : List (List Byte)) (acc : List Byte),
        pk.foldl (fun v p => v ++ p) acc = acc ++ pk.flatten := by
      intro pk
      induction pk with
      | nil => simp
      | cons p pk ih => intro acc; simp [ih, List.append_assoc]
    rw [key, hfl, List.nil_append]
  · intro abi s hph hv hr hsz hck
    rw [run_chunks abi B P hP s hph hv hr hsz]
    simp [validate, hsz, hck, sender_checksum_eq]
  · rw [hfl, sender_checksum_eq]

/-- What `UDPImage.sendImageInPackets` sends when the allocation and every send succeed. -/
theorem sendImageInPackets_all_ok (env : Env) (fuel : Nat) (sock : Socket) (B : List Byte)
    (P : Nat) (block : Nat → Byte) (hP : 0 < P) (hmalloc : env.malloc = some block)
    (hall : ∀ i, sock.outcome i = true) (hfuel : B.length + 1 ≤ fuel) :
    UDPImage.sendImageInPackets env fuel sock B P
      = some (0, { outcome := sock.outcome
                   calls := sock.calls ++ (List.range (max 1 ((B.length + P - 1) / P))).map
                     (fun j => (B.drop (j * P)).take P) }) := by
  obtain ⟨e, calls, hres, hok, _⟩ := sendImageInPackets_spec env fuel sock B P block hmalloc hP hfuel
  obtain ⟨he, hcalls⟩ := hok (fun j _ => hall _)
  rw [hres, he, hcalls]

theorem calls_inj {o : Nat → Bool} {c pk pk' : List (List Byte)}
    (h : (some ((0 : Nat), ({ outcome := o, calls := c ++ pk } : Socket)))
      = some (0, { outcome := o, calls := c ++ pk' })) : pk = pk' := by
  simp only [Option.some.injEq, Prod.mk.injEq, Socket.mk.injEq, true_and] at h
  exact List.append_cancel_left h

theorem checksum_1_to_10 :
    UDPImage.computeChecksum [1, 2, 3, 4, 5, 6, 7, 8, 9, 10] = 2561 := by
  rw [sender_checksum_eq, computeChecksum_closed _ (by decide)]
  decide

/-- Claim C2 (amended) at `B = [1..10]`, `P = 4`: the packets are `[1,2,3,4]`, `[5,6,7,8]`,
`[9,10]`, and the receiver decodes `[1..10]`. -/
theorem C2_fragment_roundtrip_witness :
    ∃ pk : List (List Byte),
      UDPImage.sendImageInPackets envOk 11 sockOk [1, 2, 3, 4, 5, 6, 7, 8, 9, 10] 4
        = some (0, { outcome := sockOk.outcome, calls := sockOk.calls ++ pk }) ∧
      pk = [[1, 2, 3, 4], [5, 6, 7, 8], [9, 10]] ∧
      (∀ p ∈ pk, p.length ≤ 4) ∧
      pk.flatten = [1, 2, 3, 4, 5, 6, 7, 8, 9, 10] ∧
      run gccLinux
          { phase := Phase.AwaitingData
            dataPacketEncodedImage :=
              { headerStr := magic, imgSize := 10, packetSize := 4, checksum := 2561 }
            vectorImg := [], receivedBytes := 0 }
          (pk.map Recv.datagram)
        = ({ phase := Phase.AwaitingHeader
             dataPacketEncodedImage :=
               { headerStr := magic, imgSize := 10, packetSize := 4, checksum := 2561 }
             vectorImg := [1, 2, 3, 4, 5, 6, 7, 8, 9, 10], receivedBytes := 10 },
           [Event.decode [1, 2, 3, 4, 5, 6, 7, 8, 9, 10]]) ∧
      computeChecksum pk.flatten = UDPImage.computeChecksum [1, 2, 3, 4, 5, 6, 7, 8, 9, 10] := by
  obtain ⟨pk, h1, h2, _, h4, _, h6, h7⟩ :=
    C2_fragment_roundtrip envOk 11 sockOk [1, 2, 3, 4, 5, 6, 7, 8, 9, 10] 4 (fun _ => 0)
      (by decide) rfl (fun _ => rfl) (by decide)
  refine ⟨pk, h1, ?_, h2, h4, ?_, h7⟩
  · have h := sendImageInPackets_all_ok envOk 11 sockOk [1, 2, 3, 4, 5, 6, 7, 8, 9, 10] 4
      (fun _ => 0) (by decide) rfl (fun _ => rfl) (by decide)
    rw [h1] at h
    rw [calls_inj h]
    decide
  · exact h6 gccLinux _ rfl rfl rfl (by decide) (by rw [checksum_1_to_10])

/-- Claim C2 as stated fails when `malloc` returns `NULL`: for the buffer `[1, 2, 3]` and
`P = 2`, on a socket on which every `sendto` would succeed, `sendImageInPackets` takes
the branch of lines 179-183, returns `1` and hands nothing to `sendto`; no send failed,
and the packets sent, none, do not give the buffer back. -/
theorem C2_no_packet_buffer :
    0 < 2 ∧
    (∀ i, sockOk.outcome i = true) ∧
    UDPImage.sendImageInPackets envNoMemory 4 sockOk [1, 2, 3] 2 = some (1, sockOk) ∧
    sockOk.calls = [] ∧
    sockOk.calls.flatten ≠ ([1, 2, 3] : List Byte) :=
  ⟨by decide, fun _ => rfl, rfl, rfl, by decide⟩

/-- Claim C3 as stated fails at `L = 0`: for the empty buffer and `P = 4`, with every
send succeeding, `sendImageInPackets` hands one packet, of length `0`, to `sendto`, while
`ceil(0 / 4)` is `0` and the stated length of the last packet is `P = 4`. -/
theorem C3_empty_buffer_one_packet :
    UDPImage.sendImageInPackets envOk 1 sockOk [] 4
      = some (0, { outcome := sockOk.outcome, calls := [[]] }) ∧
    (∀ i, sockOk.outcome i = true) ∧
    ([[]] : List (List Byte)).length ≠ (([] : List Byte).length + 4 - 1) / 4 ∧
    (([[]] : List (List Byte)).getD 0 []).length ≠ 4 := by
  refine ⟨?_, fun _ => rfl, by decide, by decide⟩
  rw [sendImageInPackets_all_ok envOk 1 sockOk [] 4 (fun _ => 0) (by decide) rfl (fun _ => rfl)
    (by decide)]
  rfl

/-- Claim C3, amended.  For every buffer of length `L` and every packet length
`P > 0`, when the packet buffer is allocated and every send succeeds, `sendImageInPackets`
sends `max 1 (ceil (L / P))` data packets, all but the last of length exactly `P`.  For
`L >= 1` that is `ceil (L / P)` packets (written `(L + P - 1) / P`; it is the `m` with
`(m - 1) * P < L <= m * P`) and the last has length `L mod P`, or `P` if `L mod P = 0`.
For `L = 0` it is one packet, of length `0`. -/
theorem C3_packet_count (env : Env) (fuel : Nat) (sock : Socket) (B : List Byte) (P : Nat)
    (block : Nat → Byte) (hP : 0 < P) (hmalloc : env.malloc = some block)
    (hall : ∀ i, sock.outcome i = true) (hfuel : B.length + 1 ≤ fuel) :
    ∃ pk : List (List Byte),
      UDPImage.sendImageInPackets env fuel sock B P
        = some (0, { outcome := sock.outcome, calls := sock.calls ++ pk }) ∧
      pk.length = max 1 ((B.length + P - 1) / P) ∧
      (∀ j, j + 1 < pk.length → (pk.getD j []).length = P) ∧
      (0 < B.length →
        pk.length = (B.length + P - 1) / P ∧
        (pk.length - 1) * P < B.length ∧ B.length ≤ pk.length * P ∧
        (pk.getD (pk.length - 1) []).length = if B.length % P = 0 then P else B.length % P) ∧
      (B.length = 0 → pk = [[]]) := by
  obtain ⟨hb1, hb2⟩ := ceil_bounds B.length P hP
  refine ⟨_, sendImageInPackets_all_ok env fuel sock B P block hP hmalloc hall hfuel, ?_, ?_, ?_, ?_⟩
  · simp
  · intro j hj
    rw [List.length_map, List.length_range] at hj
    have hidx : j < ((List.range (max 1 ((B.length + P - 1) / P))).map
        (fun j => (B.drop (j * P)).take P)).length := by
      rw [List.length_map, List.length_range]; omega
    rw [List.getD_eq_getElem _ _ hidx]
    simp only [List.getElem_map, List.getElem_range, List.length_take, List.length_drop]
    have hj' : j + 1 ≤ max 1 ((B.length + P - 1) / P) - 1 := by omega
    have h1 : (j + 1) * P ≤ (max 1 ((B.length + P - 1) / P) - 1) * P := Nat.mul_le_mul_right P hj'
    rcases hb2 with h | h
    · omega
    · rw [Nat.add_mul, Nat.one_mul] at h1
      omega
  · intro hL
    have hc : 1 ≤ (B.length + P - 1) / P := by
      rw [Nat.le_div_iff_mul_le hP]
      omega
    have hmax : max 1 ((B.length + P - 1) / P) = (B.length + P - 1) / P := by omega
    rw [hmax] at hb1 hb2
    simp only [List.length_map, List.length_range, hmax]
    refine ⟨trivial, ?_, hb1, ?_⟩
    · rcases hb2 with h | h
      · rw [h]; simpa using hL
      · exact h
    · have hidx : (B.length + P - 1) / P - 1 < ((List.range ((B.length + P - 1) / P)).map
          (fun j => (B.drop (j * P)).take P)).length := by
        rw [List.length_map, List.length_range]; omega
      rw [List.getD_eq_getElem _ _ hidx]
      simp only [List.getElem_map, List.getElem_range, List.length_take, List.length_drop]
      have hl := last_length B.length P hP hL
      have e : ((B.length + P - 1) / P - 1) * P = (B.length + P - 1) / P * P - P := by
        rw [Nat.sub_mul, Nat.one_mul]
      have hcP : 1 * P ≤ (B.length + P - 1) / P * P := Nat.mul_le_mul_right P hc
      rw [← hl, e]
      omega
  · intro hL
    have hBn : B = [] := List.length_eq_zero.mp hL
    subst hBn
    have : ((([] : List Byte).length + P - 1) / P) = 0 := by
      simp only [List.length_nil, Nat.zero_add]
      exact Nat.div_eq_of_lt (by omega)
    rw [this]
    simp

/-- Claim C3 (amended) at `L = 10`, `P = 4`: three packets, of lengths 4, 4 and 2. -/
theorem C3_packet_count_witness :
    ∃ pk : List (List Byte),
      UDPImage.sendImageInPackets envOk 11 sockOk [1, 2, 3, 4, 5, 6, 7, 8, 9, 10] 4
        = some (0, { outcome := sockOk.outcome, calls := sockOk.calls ++ pk }) ∧
      pk.length = 3 ∧ (pk.getD 0 []).length = 4 ∧ (pk.getD 1 []).length = 4 ∧
      (pk.getD 2 []).length = 2 := by
  obtain ⟨pk, h1, h2, h3, h4, _⟩ :=
    C3_packet_count envOk 11 sockOk [1, 2, 3, 4, 5, 6, 7, 8, 9, 10] 4 (fun _ => 0)
      (by decide) rfl (fun _ => rfl) (by decide)
  have hlen : pk.length = 3 := by rw [h2]; decide
  obtain ⟨_, _, _, h5⟩ := h4 (by decide)
  rw [hlen] at h3 h5
  exact ⟨pk, h1, hlen, h3 0 (by decide), h3 1 (by decide), by simpa using h5⟩

theorem headerBytes_length (stack : Nat → Byte) (i p : Int) (c : Nat) :
    (IMG_HEADER.bytes gccLinux stack
      { headerStr := magic, imgSize := i, packetSize := p, checksum := c }).length = 20 := by
  simp [IMG_HEADER.bytes, objectBytes, headerMembers, Header.memberBytes, gccLinux, memberAlign,
    alignUp, sizeofIMG_HEADER, sizeofStruct, layoutEnd, structAlign, int32Bytes, leBytes, magic]

theorem checksum_123 : UDPImage.computeChecksum [1, 2, 3] = 259 := by
  rw [sender_checksum_eq, computeChecksum_closed _ (by decide)]
  decide

/-- Claim C7 does not hold of the code.  On a socket whose first `sendto` (the
header's) fails, `sendImage` for the image `[1, 2, 3]` with packets of 2 bytes goes on to
`sendImageInPackets`: the data packets `[1, 2]` and `[3]` are handed to `sendto` after
the failed header, and `sendImage` returns `1`. -/
theorem C7_data_sent_after_failed_header :
    sockFirstFails.outcome 0 = false ∧
    UDPImage.sendImage envOk 4 sockFirstFails [1, 2, 3] 2
      = some (1, { outcome := sockFirstFails.outcome
                   calls := [[74, 80, 69, 71, 95, 73, 77, 71, 3, 0, 0, 0, 2, 0, 0, 0, 3, 1, 0, 0],
                             [1, 2], [3]] }) := by
  refine ⟨rfl, ?_⟩
  have hhdr : IMG_HEADER.bytes gccLinux (fun _ => 0)
      { headerStr := magic, imgSize := toInt32 3, packetSize := toInt32 2, checksum := 259 }
      = [74, 80, 69, 71, 95, 73, 77, 71, 3, 0, 0, 0, 2, 0, 0, 0, 3, 1, 0, 0] := by
    decide
  obtain ⟨e, calls, hres, hok, _⟩ := sendImageInPackets_spec envOk 4
    { outcome := sockFirstFails.outcome
      calls := [[74, 80, 69, 71, 95, 73, 77, 71, 3, 0, 0, 0, 2, 0, 0, 0, 3, 1, 0, 0]] }
    [1, 2, 3] 2 (fun _ => 0) rfl (by decide) (by decide)
  obtain ⟨he, hcalls⟩ := hok (fun j _ => by simp [sockFirstFails])
  subst he hcalls
  unfold UDPImage.sendImage
  simp only [checksum_123, sendto, envOk, List.length_cons, List.length_nil] at hres ⊢
  rw [hhdr]
  simp only [sockFirstFails, List.length_nil, List.nil_append] at hres ⊢
  rw [hres]
  rfl

/-- Claim C4 does not hold of the code.  With the data model of gcc on Linux,
`sizeof(IMG_HEADER)` is 20 (the structure is not packed: its `int` members align it to 4
bytes, so two bytes of padding follow `checksum`), `sizeof(DATA_PACKET_ENCODED_IMAGE)`
is 18 (the receiver's structure is `packed`); so the header `sendImage` hands to `sendto`
has 20 bytes for every image, and the receiver, awaiting a header, leaves its state as it
was when it gets it.  For the image `[1, 2, 3]` and packets of 2 bytes every send succeeds,
and the receiver that gets exactly the datagrams sent decodes nothing and still awaits a
header. -/
theorem C4_header_size_mismatch (stack : Nat → Byte) (B : List Byte) (P : Nat) (s : Receiver) :
    sizeofIMG_HEADER gccLinux = 20 ∧
    sizeofDATA_PACKET_ENCODED_IMAGE gccLinux = 18 ∧
    (IMG_HEADER.bytes gccLinux stack
      { headerStr := magic, imgSize := toInt32 B.length, packetSize := toInt32 P,
        checksum := UDPImage.computeChecksum B }).length = 20 ∧
    step gccLinux { s with phase := Phase.AwaitingHeader }
        (Recv.datagram (IMG_HEADER.bytes gccLinux stack
          { headerStr := magic, imgSize := toInt32 B.length, packetSize := toInt32 P,
            checksum := UDPImage.computeChecksum B }))
      = ({ s with phase := Phase.AwaitingHeader }, []) ∧
    UDPImage.sendImage envOk 4 sockOk [1, 2, 3] 2
      = some (0, { outcome := sockOk.outcome
                   calls := [[74, 80, 69, 71, 95, 73, 77, 71, 3, 0, 0, 0, 2, 0, 0, 0, 3, 1, 0, 0],
                             [1, 2], [3]] }) ∧
    run gccLinux (Receiver.init noHeader)
        ([[74, 80, 69, 71, 95, 73, 77, 71, 3, 0, 0, 0, 2, 0, 0, 0, 3, 1, 0, 0],
          [1, 2], [3]].map Recv.datagram)
      = (Receiver.init noHeader, []) := by
  have hlen := headerBytes_length stack (toInt32 B.length) (toInt32 P) (UDPImage.computeChecksum B)
  refine ⟨by decide, by decide, hlen, ?_, ?_, by decide⟩
  · apply step_ignored _ _ _ rfl
    simp [Recv.dataReceived, hlen]
  · have hhdr : IMG_HEADER.bytes gccLinux (fun _ => 0)
        { headerStr := magic, imgSize := toInt32 3, packetSize := toInt32 2, checksum := 259 }
        = [74, 80, 69, 71, 95, 73, 77, 71, 3, 0, 0, 0, 2, 0, 0, 0, 3, 1, 0, 0] := by
      decide
    have hres := sendImageInPackets_all_ok envOk 4
      { outcome := sockOk.outcome
        calls := [[74, 80, 69, 71, 95, 73, 77, 71, 3, 0, 0, 0, 2, 0, 0, 0, 3, 1, 0, 0]] }
      [1, 2, 3] 2 (fun _ => 0) (by decide) rfl (fun _ => rfl) (by decide)
    unfold UDPImage.sendImage
    simp only [checksum_123, sendto, envOk, List.length_cons, List.length_nil] at hres ⊢
    rw [hhdr]
    simp only [sockOk, List.length_nil, List.nil_append] at hres ⊢
    rw [hres]
    rfl

/-- Claim C5 as stated fails: a packet of 18 bytes whose first 8 bytes are
`"XXXXXXXX"`, not `"JPEG_IMG"`, and that declares 5 bytes, received while awaiting a
header, overwrites the stored header, and the receiver then awaits data. -/
theorem C5_wrong_magic_accepted :
    badMagicPacket.length = 18 ∧
    badMagicPacket.take 8 ≠ magic ∧
    step gccLinux (Receiver.init noHeader) (Recv.datagram badMagicPacket)
      = ({ phase := Phase.AwaitingData
           dataPacketEncodedImage :=
             { headerStr := [88, 88, 88, 88, 88, 88, 88, 88], imgSize := 5, packetSize := 4,
               checksum := 0 }
           vectorImg := []
           receivedBytes := 0 }, []) ∧
    (step gccLinux (Receiver.init noHeader) (Recv.datagram badMagicPacket)).1
      ≠ Receiver.init noHeader := by
  decide

/-- Claim C5, amended.  For every return of `recvfrom` while the receiver awaits a
header: the header size is 18; if the call failed or the packet's length is not 18, the
state is unchanged and nothing is reported; a packet of exactly 18 bytes, whatever its
first 8 bytes, overwrites the stored header with its fields and empties the buffer; the
receiver then awaits data when the declared `imgSize` is positive, and otherwise
validates the empty buffer at once and awaits a header again. -/
theorem C5_header_recognition (abi : ABI) (s : Receiver) (r : Recv)
    (hph : s.phase = Phase.AwaitingHeader) :
    sizeofDATA_PACKET_ENCODED_IMAGE abi = 18 ∧
    (r.dataReceived ≠ 18 → step abi s r = (s, [])) ∧
    (r.dataReceived = 18 → 0 < (parseHeader r.buffer).imgSize →
      step abi s r
        = ({ phase := Phase.AwaitingData, dataPacketEncodedImage := parseHeader r.buffer,
             vectorImg := [], receivedBytes := 0 }, [])) ∧
    (r.dataReceived = 18 → (parseHeader r.buffer).imgSize ≤ 0 →
      step abi s r
        = ({ phase := Phase.AwaitingHeader, dataPacketEncodedImage := parseHeader r.buffer,
             vectorImg := [], receivedBytes := 0 }, [verdict (parseHeader r.buffer) []])) := by
  refine ⟨sizeof_packed abi, step_ignored abi s r hph, ?_, ?_⟩
  · intro h18 hpos
    cases r with
    | error => simp [Recv.dataReceived] at h18
    | datagram p =>
      have hl : p.length = 18 := by
        simp only [Recv.dataReceived] at h18
        omega
      rw [step_header abi s p hph hl]
      simp only [whileTest, Recv.buffer] at hpos ⊢
      rw [if_pos hpos]
  · intro h18 hle
    cases r with
    | error => simp [Recv.dataReceived] at h18
    | datagram p =>
      have hl : p.length = 18 := by
        simp only [Recv.dataReceived] at h18
        omega
      rw [step_header abi s p hph hl]
      simp only [whileTest, Recv.buffer] at hle ⊢
      rw [if_neg (by omega), validate_eq_verdict]

/-- Claim C5 (amended) on a packet of 3 bytes, on a failed receive, and on a header
that declares 10 bytes. -/
theorem C5_header_recognition_witness :
    step gccLinux (Receiver.init noHeader) (Recv.datagram [1, 2, 3]) = (Receiver.init noHeader, []) ∧
    step gccLinux (Receiver.init noHeader) Recv.error = (Receiver.init noHeader, []) ∧
    step gccLinux (Receiver.init noHeader) (Recv.datagram (headerPacket magic 10 4 2561))
      = ({ phase := Phase.AwaitingData
           dataPacketEncodedImage := parseHeader (headerPacket magic 10 4 2561)
           vectorImg := [], receivedBytes := 0 }, []) :=
  ⟨(C5_header_recognition gccLinux (Receiver.init noHeader) (Recv.datagram [1, 2, 3]) rfl).2.1
      (by decide),
   (C5_header_recognition gccLinux (Receiver.init noHeader) Recv.error rfl).2.1 (by decide),
   (C5_header_recognition gccLinux (Receiver.init noHeader)
      (Recv.datagram (headerPacket magic 10 4 2561)) rfl).2.2.1 (by decide) (by decide)⟩

theorem whileTest_events (s : Receiver) (e : Event) (he : e ∈ (whileTest s).2) :
    (whileTest s).1.phase = Phase.AwaitingHeader ∧
    (whileTest s).1.dataPacketEncodedImage = s.dataPacketEncodedImage ∧
    (whileTest s).1.vectorImg = s.vectorImg ∧
    e = verdict s.dataPacketEncodedImage s.vectorImg := by
  unfold whileTest at he ⊢
  split at he
  · simp at he
  · next h =>
    rw [if_neg h]
    rw [validate_eq_verdict] at he ⊢
    simp only [List.mem_singleton] at he
    exact ⟨rfl, rfl, rfl, he⟩

/-- Whatever one return of `recvfrom` makes the receiver report or decode, it is the
outcome for the buffer and header it then holds, and the receiver awaits a header. -/
theorem step_events (abi : ABI) (t : Receiver) (r : Recv) (e : Event)
    (he : e ∈ (step abi t r).2) :
    (step abi t r).1.phase = Phase.AwaitingHeader ∧
    e = verdict (step abi t r).1.dataPacketEncodedImage (step abi t r).1.vectorImg := by
  obtain ⟨ph, hd, v, rb⟩ := t
  cases ph with
  | AwaitingHeader =>
    simp only [step] at he ⊢
    split at he
    · next h1 =>
      rw [if_pos h1]
      split at he
      · next h2 =>
        rw [if_pos h2]
        obtain ⟨a, b, c, d⟩ := whileTest_events _ e he
        rw [b, c]
        exact ⟨a, d⟩
      · simp at he
    · simp at he
  | AwaitingData =>
    simp only [step] at he ⊢
    obtain ⟨a, b, c, d⟩ := whileTest_events _ e he
    rw [b, c]
    exact ⟨a, d⟩

theorem verdict_decode (h : Header) (v buf : List Byte) (hv : Event.decode buf = verdict h v) :
    buf = v ∧ (v.length : Int) = h.imgSize ∧ computeChecksum v = h.checksum := by
  unfold verdict at hv
  split at hv
  · exact absurd hv (by simp)
  · next h1 =>
    split at hv
    · exact absurd hv (by simp)
    · next h2 =>
      simp only [Event.decode.injEq] at hv
      exact ⟨hv, by simpa using h1, by simpa using h2⟩

/-- Claim C6.  After a packet of header size, received while awaiting a header, and
for every sequence of data packets received without error: as long as the bytes
accumulated stay below `imgSize` the receiver awaits data, the buffer being the payloads
appended in arrival order, and nothing is reported; with the packet that first brings
the accumulated length to `imgSize` or more (or at once, when `imgSize <= 0`) the
receiver reports size mismatch if the length is not `imgSize`, else checksum mismatch if
`computeChecksum` of the buffer is not the declared checksum, else decodes exactly the
buffer, and in each of the three cases awaits a header again.  Whenever a return of
`recvfrom` makes the receiver decode, the decoded buffer is the accumulated one, its
length is the stored `imgSize` and its checksum the stored `checksum`. -/
theorem C6_reassembly_validation (abi : ABI) (s : Receiver) (hp : List Byte)
    (hph : s.phase = Phase.AwaitingHeader) (hlen : hp.length = 18) :
    (∀ ps : List (List Byte), (ps.flatten.length : Int) < (parseHeader hp).imgSize →
      run abi s (Recv.datagram hp :: ps.map Recv.datagram)
        = ({ phase := Phase.AwaitingData, dataPacketEncodedImage := parseHeader hp,
             vectorImg := ps.flatten, receivedBytes := (ps.flatten.length : Int) }, [])) ∧
    (∀ (qs : List (List Byte)) (p : List Byte),
      (qs.flatten.length : Int) < (parseHeader hp).imgSize →
      (parseHeader hp).imgSize ≤ ((qs ++ [p]).flatten.length : Int) →
      run abi s (Recv.datagram hp :: (qs ++ [p]).map Recv.datagram)
        = ({ phase := Phase.AwaitingHeader, dataPacketEncodedImage := parseHeader hp,
             vectorImg := (qs ++ [p]).flatten,
             receivedBytes := ((qs ++ [p]).flatten.length : Int) },
           [verdict (parseHeader hp) (qs ++ [p]).flatten])) ∧
    ((parseHeader hp).imgSize ≤ 0 →
      run abi s [Recv.datagram hp]
        = ({ phase := Phase.AwaitingHeader, dataPacketEncodedImage := parseHeader hp,
             vectorImg := [], receivedBytes := 0 }, [verdict (parseHeader hp) []])) ∧
    (∀ (t : Receiver) (r : Recv) (e : Event), e ∈ (step abi t r).2 →
      (step abi t r).1.phase = Phase.AwaitingHeader ∧
      e = verdict (step abi t r).1.dataPacketEncodedImage (step abi t r).1.vectorImg) ∧
    (∀ (t : Receiver) (r : Recv) (buf : List Byte), Event.decode buf ∈ (step abi t r).2 →
      buf = (step abi t r).1.vectorImg ∧
      (buf.length : Int) = (step abi t r).1.dataPacketEncodedImage.imgSize ∧
      computeChecksum buf = (step abi t r).1.dataPacketEncodedImage.checksum) := by
  refine ⟨fun ps hlt => run_header_below abi s hp ps hph hlen hlt, ?_, ?_, step_events abi, ?_⟩
  · intro qs p hlt hge
    rw [run_header_complete abi s hp qs p hph hlen hlt hge, validate_eq_verdict]
  · intro hle
    rw [run, step_header abi s hp hph hlen]
    simp only [whileTest]
    rw [if_neg (by omega), validate_eq_verdict]
    simp [run]
  · intro t r buf hmem
    obtain ⟨_, hv⟩ := step_events abi t r _ hmem
    obtain ⟨h1, h2, h3⟩ := verdict_decode _ _ _ hv
    rw [h1]
    exact ⟨rfl, h2, h3⟩

theorem checksum_1234 : computeChecksum [1, 2, 3, 4] = 1280 := by
  rw [computeChecksum_closed _ (by decide)]
  decide

/-- Claim C6 on a header declaring 4 bytes: three bytes received, the receiver still
awaits data; the fourth byte, decode; five bytes, size mismatch; a wrong declared
checksum, checksum mismatch. -/
theorem C6_reassembly_validation_witness :
    run gccLinux (Receiver.init noHeader)
        [Recv.datagram (headerPacket magic 4 3 1280), Recv.datagram [1, 2, 3]]
      = ({ phase := Phase.AwaitingData
           dataPacketEncodedImage := parseHeader (headerPacket magic 4 3 1280)
           vectorImg := [1, 2, 3], receivedBytes := 3 }, []) ∧
    run gccLinux (Receiver.init noHeader)
        [Recv.datagram (headerPacket magic 4 3 1280), Recv.datagram [1, 2, 3], Recv.datagram [4]]
      = ({ phase := Phase.AwaitingHeader
           dataPacketEncodedImage := parseHeader (headerPacket magic 4 3 1280)
           vectorImg := [1, 2, 3, 4], receivedBytes := 4 }, [Event.decode [1, 2, 3, 4]]) ∧
    run gccLinux (Receiver.init noHeader)
        [Recv.datagram (headerPacket magic 4 3 1280), Recv.datagram [1, 2, 3],
          Recv.datagram [4, 5]]
      = ({ phase := Phase.AwaitingHeader
           dataPacketEncodedImage := parseHeader (headerPacket magic 4 3 1280)
           vectorImg := [1, 2, 3, 4, 5], receivedBytes := 5 }, [Event.sizeMismatch]) ∧
    run gccLinux (Receiver.init noHeader)
        [Recv.datagram (headerPacket magic 4 3 7), Recv.datagram [1, 2, 3], Recv.datagram [4]]
      = ({ phase := Phase.AwaitingHeader
           dataPacketEncodedImage := parseHeader (headerPacket magic 4 3 7)
           vectorImg := [1, 2, 3, 4], receivedBytes := 4 }, [Event.checksumMismatch]) := by
  have hv1 : verdict (parseHeader (headerPacket magic 4 3 1280)) [1, 2, 3, 4]
      = Event.decode [1, 2, 3, 4] := by
    unfold verdict
    rw [checksum_1234]
    decide
  have hv2 : verdict (parseHeader (headerPacket magic 4 3 7)) [1, 2, 3, 4]
      = Event.checksumMismatch := by
    unfold verdict
    rw [checksum_1234]
    decide
  have hv3 : verdict (parseHeader (headerPacket magic 4 3 1280)) [1, 2, 3, 4, 5]
      = Event.sizeMismatch := by
    decide
  refine ⟨?_, ?_, ?_, ?_⟩
  · exact (C6_reassembly_validation gccLinux (Receiver.init noHeader)
      (headerPacket magic 4 3 1280) rfl (by decide)).1 [[1, 2, 3]] (by decide)
  · rw [← hv1]
    exact (C6_reassembly_validation gccLinux (Receiver.init noHeader)
      (headerPacket magic 4 3 1280) rfl (by decide)).2.1 [[1, 2, 3]] [4] (by decide) (by decide)
  · rw [← hv3]
    exact (C6_reassembly_validation gccLinux (Receiver.init noHeader)
      (headerPacket magic 4 3 1280) rfl (by decide)).2.1 [[1, 2, 3]] [4, 5] (by decide) (by decide)
  · rw [← hv2]
    exact (C6_reassembly_validation gccLinux (Receiver.init noHeader)
      (headerPacket magic 4 3 7) rfl (by decide)).2.1 [[1, 2, 3]] [4] (by decide) (by decide)

/-- Claim C8 does not hold of the code.  After a header declaring 4 bytes, a failed
`recvfrom` (value `-1`) leaves the receiver awaiting data, with `receivedBytes = -1`; the
four bytes `[1, 2, 3, 4]` it receives next leave it still awaiting data, with
`receivedBytes = 3`; one more byte ends the transfer with a size mismatch. -/
theorem C8_failed_receive_keeps_session :
    run gccLinux (Receiver.init noHeader)
        [Recv.datagram (headerPacket magic 4 4 1280), Recv.error]
      = ({ phase := Phase.AwaitingData
           dataPacketEncodedImage :=
             { headerStr := magic, imgSize := 4, packetSize := 4, checksum := 1280 }
           vectorImg := [], receivedBytes := -1 }, []) ∧
    run gccLinux (Receiver.init noHeader)
        [Recv.datagram (headerPacket magic 4 4 1280), Recv.error, Recv.datagram [1, 2, 3, 4]]
      = ({ phase := Phase.AwaitingData
           dataPacketEncodedImage :=
             { headerStr := magic, imgSize := 4, packetSize := 4, checksum := 1280 }
           vectorImg := [1, 2, 3, 4], receivedBytes := 3 }, []) ∧
    run gccLinux (Receiver.init noHeader)
        [Recv.datagram (headerPacket magic 4 4 1280), Recv.error, Recv.datagram [1, 2, 3, 4],
          Recv.datagram [5]]
      = ({ phase := Phase.AwaitingHeader
           dataPacketEncodedImage :=
             { headerStr := magic, imgSize := 4, packetSize := 4, checksum := 1280 }
           vectorImg := [1, 2, 3, 4, 5], receivedBytes := 4 }, [Event.sizeMismatch]) := by
  refine ⟨by decide, by decide, by decide⟩

theorem xorAll_perm {l l' : List Byte} (h : l.Perm l') : xorAll l = xorAll l' := by
  induction h with
  | nil => rfl
  | cons a _ ih => simp only [xorAll, ih]
  | swap a b l =>
    simp only [xorAll]
    rw [← Nat.xor_assoc, ← Nat.xor_assoc, Nat.xor_comm b.val a.val]
  | trans _ _ ih1 ih2 => exact ih1.trans ih2

theorem xorAll_append (l l' : List Byte) : xorAll (l ++ l') = xorAll l ^^^ xorAll l' := by
  induction l with
  | nil => simp [xorAll]
  | cons a l ih =>
    have e : xorAll (a :: (l ++ l')) = a.val ^^^ xorAll (l ++ l') := rfl
    have e' : xorAll (a :: l) = a.val ^^^ xorAll l := rfl
    rw [List.cons_append, e, ih, e', Nat.xor_assoc]

/-- The checksum does not see the order of the bytes between the first and the last. -/
theorem checksum_interior_perm (a z : Byte) (mid mid' : List Byte) (h : mid.Perm mid') :
    computeChecksum (a :: mid' ++ [z]) = computeChecksum (a :: mid ++ [z]) := by
  rw [computeChecksum_closed _ (by simp), computeChecksum_closed _ (by simp)]
  have e1 : (a :: mid' ++ [z]).dropLast = a :: mid' := by
    rw [List.dropLast_concat]
  have e2 : (a :: mid ++ [z]).dropLast = a :: mid := by
    rw [List.dropLast_concat]
  rw [e1, e2]
  simp only [List.cons_append, List.tail_cons, xorAll_append, xorAll, xorAll_perm h]

/-- A header and the data packets up to the one that completes the declared size. -/
theorem run_header_verdict (abi : ABI) (s : Receiver) (hp : List Byte) (qs : List (List Byte))
    (p : List Byte) (hph : s.phase = Phase.AwaitingHeader) (hlen : hp.length = 18)
    (hlt : (qs.flatten.length : Int) < (parseHeader hp).imgSize)
    (hge : (parseHeader hp).imgSize ≤ ((qs ++ [p]).flatten.length : Int)) :
    run abi s (Recv.datagram hp :: (qs ++ [p]).map Recv.datagram)
      = ({ phase := Phase.AwaitingHeader, dataPacketEncodedImage := parseHeader hp,
           vectorImg := (qs ++ [p]).flatten,
           receivedBytes := ((qs ++ [p]).flatten.length : Int) },
         [verdict (parseHeader hp) (qs ++ [p]).flatten]) := by
  rw [run_header_complete abi s hp qs p hph hlen hlt hge, validate_eq_verdict]

/-- Claim C9.  For every byte sequence `B`, index `i < n` and bit `b < 8`: when
`n >= 2`, flipping bit `b` of `B[i]` changes the checksum (the sender's and the
receiver's), so the validation of a buffer that is `B` with one bit flipped, under a
header declaring the length and the checksum of `B`, reports checksum mismatch and does
not decode, whether entered directly or through a header and data packets; when `n = 1`
the flip leaves the checksum as it is, `0`. -/
theorem C9_single_bit_flip (B : List Byte) (i b : Nat) (hi : i < B.length) (hb : b < 8) :
    (2 ≤ B.length →
      UDPImage.computeChecksum (flipBitAt B i b) ≠ UDPImage.computeChecksum B ∧
      computeChecksum (flipBitAt B i b) ≠ computeChecksum B ∧
      (∀ s : Receiver, s.dataPacketEncodedImage.imgSize = B.length →
        s.dataPacketEncodedImage.checksum = UDPImage.computeChecksum B →
        s.vectorImg = flipBitAt B i b →
        validate s = ({ s with phase := Phase.AwaitingHeader }, [Event.checksumMismatch])) ∧
      (∀ (abi : ABI) (s : Receiver) (hp : List Byte) (qs : List (List Byte)) (p : List Byte),
        s.phase = Phase.AwaitingHeader → hp.length = 18 →
        (parseHeader hp).imgSize = B.length →
        (parseHeader hp).checksum = UDPImage.computeChecksum B →
        (qs ++ [p]).flatten = flipBitAt B i b → p ≠ [] →
        run abi s (Recv.datagram hp :: (qs ++ [p]).map Recv.datagram)
          = ({ phase := Phase.AwaitingHeader, dataPacketEncodedImage := parseHeader hp,
               vectorImg := flipBitAt B i b, receivedBytes := B.length },
             [Event.checksumMismatch]))) ∧
    (B.length = 1 →
      UDPImage.computeChecksum (flipBitAt B i b) = UDPImage.computeChecksum B ∧
      computeChecksum (flipBitAt B i b) = computeChecksum B ∧
      computeChecksum B = 0) := by
  have hlen := length_flipBitAt B i b
  constructor
  · intro hn
    have hne := checksum_flip_ne B i b hn hi hb
    have hv : ∀ h : Header, h.imgSize = B.length → h.checksum = UDPImage.computeChecksum B →
        verdict h (flipBitAt B i b) = Event.checksumMismatch := by
      intro h h1 h2
      unfold verdict
      rw [if_neg (by rw [hlen, h1]; simp), if_pos (by rw [h2, sender_checksum_eq]; exact hne)]
    refine ⟨by rw [sender_checksum_eq, sender_checksum_eq]; exact hne, hne, ?_, ?_⟩
    · intro s h1 h2 h3
      rw [validate_eq_verdict, h3, hv _ h1 h2]
    · intro abi s hp qs p hph hl h1 h2 hfl hp0
      have hpl : 0 < p.length := List.length_pos.mpr hp0
      have hfl' := congrArg List.length hfl
      rw [hlen] at hfl'
      have hq : (qs ++ [p]).flatten.length = qs.flatten.length + p.length := by simp
      rw [run_header_verdict abi s hp qs p hph hl (by rw [h1]; omega) (by rw [h1, hfl']), hfl, hv _ h1 h2, hlen]
  · intro h1
    have e1 : computeChecksum (flipBitAt B i b) = 0 := by
      unfold computeChecksum
      rw [if_neg (by omega)]
    have e2 : computeChecksum B = 0 := by
      unfold computeChecksum
      rw [if_neg (by omega)]
    exact ⟨by rw [sender_checksum_eq, sender_checksum_eq, e1, e2], by rw [e1, e2], e2⟩


theorem checksum_12 : UDPImage.computeChecksum [1, 2] = 513 := by
  rw [sender_checksum_eq, computeChecksum_closed _ (by decide)]
  decide

/-- Claim C9 at `B = [1, 2]`, bit 0 of byte 0, and at `B = [7]`, bit 3 of byte 0. -/
theorem C9_single_bit_flip_witness :
    flipBitAt [1, 2] 0 0 = [0, 2] ∧
    UDPImage.computeChecksum (flipBitAt [1, 2] 0 0) ≠ UDPImage.computeChecksum [1, 2] ∧
    computeChecksum (flipBitAt [1, 2] 0 0) ≠ computeChecksum [1, 2] ∧
    run gccLinux (Receiver.init noHeader)
        [Recv.datagram (headerPacket magic 2 2 513), Recv.datagram [0, 2]]
      = ({ phase := Phase.AwaitingHeader
           dataPacketEncodedImage := parseHeader (headerPacket magic 2 2 513)
           vectorImg := [0, 2], receivedBytes := 2 }, [Event.checksumMismatch]) ∧
    computeChecksum (flipBitAt [7] 0 3) = computeChecksum [7] :=
  ⟨by decide,
   ((C9_single_bit_flip [1, 2] 0 0 (by decide) (by decide)).1 (by decide)).1,
   ((C9_single_bit_flip [1, 2] 0 0 (by decide) (by decide)).1 (by decide)).2.1,
   ((C9_single_bit_flip [1, 2] 0 0 (by decide) (by decide)).1 (by decide)).2.2.2 gccLinux
      (Receiver.init noHeader) (headerPacket magic 2 2 513) [] [0, 2] rfl (by decide)
      (by decide) (by rw [checksum_12]; decide) (by decide) (by decide),
   ((C9_single_bit_flip [7] 0 3 (by decide) (by decide)).2 (by decide)).2.1⟩

theorem flatten_around (pre post : List (List Byte)) (x y z : List Byte) :
    (pre ++ [x, y] ++ post ++ [z]).flatten = pre.flatten ++ (x ++ y ++ post.flatten) ++ z := by
  simp [List.append_assoc]

/-- Two neighbouring data packets that arrive in swapped order, neither holding the first
nor the last byte of the image, give a buffer with the checksum of the image. -/
theorem checksum_swapped (pre post : List (List Byte)) (p1 p2 z : List Byte)
    (hpre : pre.flatten ≠ []) (hz : z ≠ []) :
    computeChecksum (pre ++ [p2, p1] ++ post ++ [z]).flatten
      = computeChecksum (pre ++ [p1, p2] ++ post ++ [z]).flatten := by
  obtain ⟨a, pre', ha⟩ := List.exists_cons_of_ne_nil hpre
  have hzz := List.dropLast_append_getLast hz
  rw [flatten_around, flatten_around, ha, ← hzz]
  have e : ∀ m : List Byte, a :: pre' ++ m ++ (z.dropLast ++ [z.getLast hz])
      = a :: (pre' ++ m ++ z.dropLast) ++ [z.getLast hz] := by
    intro m
    simp [List.append_assoc]
  rw [e, e]
  apply checksum_interior_perm
  exact List.Perm.append_right _ (List.Perm.append_left _
    (List.Perm.append_right _ List.perm_append_comm))

/-- Claim C10.  For every byte sequence `B` of length `n >= 2` the checksum is
`((B[1] xor ... xor B[n-1]) << 8) | (B[0] xor ... xor B[n-2])`; so it is the same for every
buffer that differs from `B` by a permutation of the bytes between the first and the
last; and when two neighbouring data packets of equal length, before which the first byte
and after which the last byte of the image arrive, come in swapped order, the receiver,
under the header of `B`, finds size and checksum in order and decodes the swapped
buffer. -/
theorem C10_interior_permutation (B : List Byte) (hn : 2 ≤ B.length) :
    UDPImage.computeChecksum B = (xorAll B.tail <<< 8) ||| xorAll B.dropLast ∧
    computeChecksum B = (xorAll B.tail <<< 8) ||| xorAll B.dropLast ∧
    (∀ (a z : Byte) (mid mid' : List Byte), B = a :: mid ++ [z] → mid.Perm mid' →
      UDPImage.computeChecksum (a :: mid' ++ [z]) = UDPImage.computeChecksum B ∧
      computeChecksum (a :: mid' ++ [z]) = computeChecksum B) ∧
    (∀ (abi : ABI) (s : Receiver) (hp : List Byte) (pre post : List (List Byte))
        (p1 p2 z : List Byte),
      s.phase = Phase.AwaitingHeader → hp.length = 18 →
      (parseHeader hp).imgSize = B.length →
      (parseHeader hp).checksum = UDPImage.computeChecksum B →
      B = (pre ++ [p1, p2] ++ post ++ [z]).flatten →
      pre.flatten ≠ [] → z ≠ [] → p1.length = p2.length →
      run abi s (Recv.datagram hp :: (pre ++ [p2, p1] ++ post ++ [z]).map Recv.datagram)
        = ({ phase := Phase.AwaitingHeader, dataPacketEncodedImage := parseHeader hp,
             vectorImg := (pre ++ [p2, p1] ++ post ++ [z]).flatten,
             receivedBytes := B.length },
           [Event.decode (pre ++ [p2, p1] ++ post ++ [z]).flatten])) := by
  refine ⟨by rw [sender_checksum_eq]; exact computeChecksum_closed B hn,
    computeChecksum_closed B hn, ?_, ?_⟩
  · intro a z mid mid' hB hperm
    subst hB
    rw [sender_checksum_eq, sender_checksum_eq]
    exact ⟨checksum_interior_perm a z mid mid' hperm, checksum_interior_perm a z mid mid' hperm⟩
  · intro abi s hp pre post p1 p2 z hph hl hsz hck hB hpre hz _
    have hzl : 0 < z.length := List.length_pos.mpr hz
    have hlenB : B.length = (pre ++ [p2, p1] ++ post).flatten.length + z.length := by
      rw [hB]
      simp only [List.flatten_append, List.length_append, List.flatten_cons, List.flatten_nil,
        List.length_nil]
      omega
    have hlen' : (pre ++ [p2, p1] ++ post ++ [z]).flatten.length = B.length := by
      rw [hlenB]
      simp only [List.flatten_append, List.length_append, List.flatten_cons, List.flatten_nil,
        List.length_nil]
      omega
    have hcs : computeChecksum (pre ++ [p2, p1] ++ post ++ [z]).flatten = (parseHeader hp).checksum := by
      rw [checksum_swapped pre post p1 p2 z hpre hz, ← hB, hck, sender_checksum_eq]
    rw [run_header_verdict abi s hp (pre ++ [p2, p1] ++ post) z hph hl
      (by rw [hsz, hlenB]; push_cast; omega) (by rw [hsz, hlen'])]
    have hv : verdict (parseHeader hp) (pre ++ [p2, p1] ++ post ++ [z]).flatten
        = Event.decode (pre ++ [p2, p1] ++ post ++ [z]).flatten := by
      unfold verdict
      rw [if_neg (by rw [hlen', hsz]; simp), if_neg (by rw [hcs]; simp)]
    rw [hv, hlen']

theorem checksum_12345678 : UDPImage.computeChecksum [1, 2, 3, 4, 5, 6, 7, 8] = 2304 := by
  rw [sender_checksum_eq, computeChecksum_closed _ (by decide)]
  decide

/-- Claim C10 at `B = [1..8]` in packets of 2 bytes, the second and third swapped: the
receiver decodes `[1, 2, 5, 6, 3, 4, 7, 8]`, which is not `B`. -/
theorem C10_interior_permutation_witness :
    run gccLinux (Receiver.init noHeader)
        [Recv.datagram (headerPacket magic 8 2 2304), Recv.datagram [1, 2],
          Recv.datagram [5, 6], Recv.datagram [3, 4], Recv.datagram [7, 8]]
      = ({ phase := Phase.AwaitingHeader
           dataPacketEncodedImage := parseHeader (headerPacket magic 8 2 2304)
           vectorImg := [1, 2, 5, 6, 3, 4, 7, 8], receivedBytes := 8 },
         [Event.decode [1, 2, 5, 6, 3, 4, 7, 8]]) ∧
    ([1, 2, 5, 6, 3, 4, 7, 8] : List Byte) ≠ [1, 2, 3, 4, 5, 6, 7, 8] ∧
    computeChecksum [1, 2, 5, 6, 3, 4, 7, 8] = computeChecksum [1, 2, 3, 4, 5, 6, 7, 8] :=
  ⟨(C10_interior_permutation [1, 2, 3, 4, 5, 6, 7, 8] (by decide)).2.2.2 gccLinux
      (Receiver.init noHeader) (headerPacket magic 8 2 2304) [[1, 2]] [] [3, 4] [5, 6] [7, 8]
      rfl (by decide) (by decide) (by rw [checksum_12345678]; decide) (by decide) (by decide)
      (by decide) (by decide),
   by decide,
   ((C10_interior_permutation [1, 2, 3, 4, 5, 6, 7, 8] (by decide)).2.2.1 1 8
      [2, 3, 4, 5, 6, 7] [2, 5, 6, 3, 4, 7] rfl (by decide)).2⟩

end UDPFeedback
